import Mathlib

/-!
Verification of the rusterizer software-rendering core.

The Rust source is shallowly embedded: `f32` values are modelled by an
arbitrary `LinearOrderedField` (instantiated at `ℚ` for executable
witnesses and at `ℝ` where `sqrt`/`powf` are required), and the places
where IEEE-754 special values matter (the z-buffer comparison) use an
explicit float model `F32` with a NaN element.  Fixed-size Rust arrays
backing vectors are embedded as named components; the 4x4 / 3x3 matrix
backing store `[[f32;4];4]` is embedded as a total function `ℕ → ℕ → α`
(reads and writes in the source only ever touch indices 0..3).
-/

namespace Rusterizer

section DataModel

variable {α : Type} [LinearOrderedField α]

/-- Error carrying the two apparent shapes of mismatched operands
(src/err.rs `DimensionMismatchError`). -/
structure DimensionMismatchError where
  expected_shape : ℕ × ℕ
  got : ℕ × ℕ
deriving DecidableEq

/-- Error carrying the valid range and offending index
(src/err.rs `OutOfBoundError`). -/
structure OutOfBoundError where
  range : ℕ × ℕ
  got : ℕ × ℕ
deriving DecidableEq

/-- src/data.rs `Vec3`: three components plus a row/column (transposed) flag. -/
structure Vec3 (α : Type) where
  transposed : Bool
  d0 : α
  d1 : α
  d2 : α
deriving DecidableEq

/-- src/data.rs `Vec4`: four components plus a row/column (transposed) flag. -/
structure Vec4 (α : Type) where
  transposed : Bool
  d0 : α
  d1 : α
  d2 : α
  d3 : α
deriving DecidableEq

namespace Vec3

def new_xyz (x y z : α) : Vec3 α := ⟨false, x, y, z⟩

def x (v : Vec3 α) : α := v.d0

def y (v : Vec3 α) : α := v.d1

def z (v : Vec3 α) : α := v.d2

def r (v : Vec3 α) : α := v.d0

def g (v : Vec3 α) : α := v.d1

def b (v : Vec3 α) : α := v.d2

/-- src/data.rs `impl VecDot for Vec3`. -/
def dot (v other : Vec3 α) : α :=
  v.x * other.x + v.y * other.y + v.z * other.z

/-- src/data.rs `impl Cross for Vec3` (right-handed determinant expansion);
the result carries `transposed: false`. -/
def cross (v right : Vec3 α) : Vec3 α :=
  { transposed := false
    d0 := v.y * right.z - v.z * right.y
    d1 := v.z * right.x - v.x * right.z
    d2 := v.x * right.y - v.y * right.x }

/-- src/data.rs `Vec3::add` — fails with the two apparent shapes when the
transposed flags differ, otherwise componentwise sum keeping `self`'s flag. -/
def add (v other : Vec3 α) : Except DimensionMismatchError (Vec3 α) :=
  if v.transposed ≠ other.transposed then
    .error ⟨if v.transposed then (1, 3) else (3, 1),
            if other.transposed then (1, 3) else (3, 1)⟩
  else
    .ok { transposed := v.transposed
          d0 := v.x + other.x
          d1 := v.y + other.y
          d2 := v.z + other.z }

/-- src/data.rs `Vec3::add_` (in-place add, modelled functionally). -/
def add_ (v other : Vec3 α) : Vec3 α :=
  { v with d0 := v.d0 + other.d0, d1 := v.d1 + other.d1, d2 := v.d2 + other.d2 }

/-- src/data.rs `Vec3::minus` — same shape discipline as `add`. -/
def minus (v right : Vec3 α) : Except DimensionMismatchError (Vec3 α) :=
  if v.transposed ≠ right.transposed then
    .error ⟨if v.transposed then (1, 3) else (3, 1),
            if right.transposed then (1, 3) else (3, 1)⟩
  else
    .ok { transposed := v.transposed
          d0 := v.x - right.x
          d1 := v.y - right.y
          d2 := v.z - right.z }

/-- src/data.rs `Vec3::_minus` (unchecked); result has `transposed: false`. -/
def _minus (v right : Vec3 α) : Vec3 α :=
  ⟨false, v.d0 - right.d0, v.d1 - right.d1, v.d2 - right.d2⟩

/-- src/data.rs `Vec3::scalar_mul`; the result is built by `new_xyz`. -/
def scalar_mul (v : Vec3 α) (s : α) : Vec3 α :=
  new_xyz (v.x * s) (v.y * s) (v.z * s)

/-- src/data.rs `Vec3::scalar_mul_` (in-place, modelled functionally). -/
def scalar_mul_ (v : Vec3 α) (s : α) : Vec3 α :=
  { v with d0 := v.d0 * s, d1 := v.d1 * s, d2 := v.d2 * s }

/-- src/data.rs `impl Product for Vec3` (elementwise product). -/
def product (v rhs : Vec3 α) : Vec3 α :=
  new_xyz (v.x * rhs.x) (v.y * rhs.y) (v.z * rhs.z)

/-- src/data.rs `Vec3::product_` (in-place elementwise product). -/
def product_ (v rhs : Vec3 α) : Vec3 α :=
  { v with d0 := v.d0 * rhs.d0, d1 := v.d1 * rhs.d1, d2 := v.d2 * rhs.d2 }

end Vec3

namespace Vec4

def new_xyzw (x y z w : α) : Vec4 α := ⟨false, x, y, z, w⟩

def new (val : α) : Vec4 α := ⟨false, val, val, val, val⟩

def x (v : Vec4 α) : α := v.d0

def y (v : Vec4 α) : α := v.d1

def z (v : Vec4 α) : α := v.d2

def w (v : Vec4 α) : α := v.d3

/-- src/data.rs `Vec4::from(&Vec3, e4)` (named `fromVec3` since `from` is a
Lean keyword). -/
def fromVec3 (v : Vec3 α) (e4 : α) : Vec4 α :=
  new_xyzw v.x v.y v.z e4

/-- src/data.rs `impl VecDot for Vec4`. -/
def dot (v other : Vec4 α) : α :=
  v.x * other.x + v.y * other.y + v.z * other.z + v.w * other.w

/-- src/data.rs `Vec4::add` — fails with the two apparent shapes when the
transposed flags differ, otherwise componentwise sum keeping `self`'s flag. -/
def add (v other : Vec4 α) : Except DimensionMismatchError (Vec4 α) :=
  if v.transposed ≠ other.transposed then
    .error ⟨if v.transposed then (1, 4) else (4, 1),
            if other.transposed then (1, 4) else (4, 1)⟩
  else
    .ok { transposed := v.transposed
          d0 := v.x + other.x
          d1 := v.y + other.y
          d2 := v.z + other.z
          d3 := v.w + other.w }

/-- src/data.rs `Vec4::add_`. -/
def add_ (v other : Vec4 α) : Vec4 α :=
  { v with d0 := v.d0 + other.d0, d1 := v.d1 + other.d1
           d2 := v.d2 + other.d2, d3 := v.d3 + other.d3 }

/-- src/data.rs `Vec4::minus` — same shape discipline as `add`. -/
def minus (v right : Vec4 α) : Except DimensionMismatchError (Vec4 α) :=
  if v.transposed ≠ right.transposed then
    .error ⟨if v.transposed then (1, 4) else (4, 1),
            if right.transposed then (1, 4) else (4, 1)⟩
  else
    .ok { transposed := v.transposed
          d0 := v.x - right.x
          d1 := v.y - right.y
          d2 := v.z - right.z
          d3 := v.w - right.w }

/-- src/data.rs `Vec4::scalar_mul`. -/
def scalar_mul (v : Vec4 α) (s : α) : Vec4 α :=
  new_xyzw (v.x * s) (v.y * s) (v.z * s) (v.w * s)

/-- src/data.rs `Vec4::scalar_mul_`. -/
def scalar_mul_ (v : Vec4 α) (s : α) : Vec4 α :=
  { v with d0 := v.d0 * s, d1 := v.d1 * s, d2 := v.d2 * s, d3 := v.d3 * s }

end Vec4

/-- src/data.rs `Vec3::from(&Vec4)` (drops the fourth component). -/
def Vec3.fromVec4 (v : Vec4 α) : Vec3 α :=
  Vec3.new_xyz v.x v.y v.z

/-- src/data.rs `Mat4`: column-first `[[f32;4];4]` backing store (embedded as
a total function on indices; the source only touches indices 0..3) plus the
transposed flag consulted on every logical read/write. -/
structure Mat4 (α : Type) where
  transposed : Bool
  data : ℕ → ℕ → α

/-- src/data.rs `Mat3`: same representation at extent 3x3. -/
structure Mat3 (α : Type) where
  transposed : Bool
  data : ℕ → ℕ → α

namespace Mat4

/-- src/data.rs `Mat4::identity`. -/
def identity : Mat4 α :=
  { transposed := false, data := fun i j => if i = j then 1 else 0 }

/-- src/data.rs `Mat4::get` (physical row-major read). -/
def get (m : Mat4 α) (row col : ℕ) : α := m.data row col

/-- src/data.rs `Mat4::transposed_get` (physical column-major read). -/
def transposed_get (m : Mat4 α) (row col : ℕ) : α := m.data col row

/-- src/data.rs `_Mat::_get_entry` for `Mat4`: consults the flag. -/
def _get_entry (m : Mat4 α) (row col : ℕ) : α :=
  if m.transposed then m.transposed_get row col else m.get row col

/-- src/data.rs `_Mat::_set_entry` for `Mat4`: consults the flag to choose
row-major vs. column-major addressing of the store. -/
def _set_entry (m : Mat4 α) (row col : ℕ) (val : α) : Mat4 α :=
  { m with data := fun i j =>
      if m.transposed then
        (if i = col ∧ j = row then val else m.data i j)
      else
        (if i = row ∧ j = col then val else m.data i j) }

/-- src/data.rs `Mat::get_entry` for `Mat4` (bounds-checked). -/
def get_entry (m : Mat4 α) (row col : ℕ) : Except OutOfBoundError α :=
  if row > 3 ∨ col > 3 then
    .error ⟨(3, 3), (row, col)⟩
  else
    .ok (if m.transposed then m.transposed_get row col else m.get row col)

/-- src/data.rs `impl Transpose for Mat4`: an O(1) flag flip. -/
def transpose (m : Mat4 α) : Mat4 α :=
  { transposed := !m.transposed, data := m.data }

/-- src/data.rs `Mat4::_set_row`. -/
def _set_row (m : Mat4 α) (row : ℕ) (val : Vec4 α) : Mat4 α :=
  ((((m._set_entry row 0 val.x)._set_entry row 1 val.y)._set_entry
      row 2 val.z)._set_entry row 3 val.w)

/-- src/data.rs `Mat4::_set_column`. -/
def _set_column (m : Mat4 α) (column : ℕ) (val : Vec4 α) : Mat4 α :=
  ((((m._set_entry 0 column val.x)._set_entry 1 column val.y)._set_entry
      2 column val.z)._set_entry 3 column val.w)

/-- src/data.rs `Mat4::_get_column`. -/
def _get_column (m : Mat4 α) (column : ℕ) : Vec4 α :=
  Vec4.new_xyzw (m._get_entry 0 column) (m._get_entry 1 column)
    (m._get_entry 2 column) (m._get_entry 3 column)

/-- src/data.rs `Mat4::dot_mat`: the inner accumulation loop unrolled; each
operand is read through its own flag-selected getter, the product's flag is
`false` and only the 4x4 extent of the fresh backing array is written. -/
def dot_mat (m other : Mat4 α) : Mat4 α :=
  { transposed := false
    data := fun row col =>
      if row < 4 ∧ col < 4 then
        m._get_entry row 0 * other._get_entry 0 col
          + m._get_entry row 1 * other._get_entry 1 col
          + m._get_entry row 2 * other._get_entry 2 col
          + m._get_entry row 3 * other._get_entry 3 col
      else 0 }

/-- src/data.rs `impl MatVecDot<Vec4> for Mat4`. -/
def mat_vec_dot (m : Mat4 α) (rhs : Vec4 α) : Vec4 α :=
  Vec4.new_xyzw
    (m._get_entry 0 0 * rhs.x + m._get_entry 0 1 * rhs.y
      + m._get_entry 0 2 * rhs.z + m._get_entry 0 3 * rhs.w)
    (m._get_entry 1 0 * rhs.x + m._get_entry 1 1 * rhs.y
      + m._get_entry 1 2 * rhs.z + m._get_entry 1 3 * rhs.w)
    (m._get_entry 2 0 * rhs.x + m._get_entry 2 1 * rhs.y
      + m._get_entry 2 2 * rhs.z + m._get_entry 2 3 * rhs.w)
    (m._get_entry 3 0 * rhs.x + m._get_entry 3 1 * rhs.y
      + m._get_entry 3 2 * rhs.z + m._get_entry 3 3 * rhs.w)

end Mat4

namespace Mat3

/-- src/data.rs `Mat3::get` (physical row-major read). -/
def get (m : Mat3 α) (row col : ℕ) : α := m.data row col

/-- src/data.rs `Mat3::transposed_get` (physical column-major read). -/
def transposed_get (m : Mat3 α) (row col : ℕ) : α := m.data col row

/-- src/data.rs `Mat::get_entry` for `Mat3` (bounds-checked). -/
def get_entry (m : Mat3 α) (row col : ℕ) : Except OutOfBoundError α :=
  if row > 2 ∨ col > 2 then
    .error ⟨(2, 2), (row, col)⟩
  else
    .ok (if m.transposed then m.transposed_get row col else m.get row col)

/-- src/data.rs `impl Transpose for Mat3`: an O(1) flag flip. -/
def transpose (m : Mat3 α) : Mat3 α :=
  { transposed := !m.transposed, data := m.data }

end Mat3

end DataModel

section FloatModel

/-- Model of an `f32` value where IEEE-754 special values matter (the depth
buffer): NaN, the two infinities, or a finite value carried as a rational. -/
inductive F32 where
  | nan
  | posInf
  | negInf
  | fin (val : ℚ)
deriving DecidableEq

/-- IEEE-754 `>` on `f32`: any comparison involving NaN is false. -/
def F32.fgt : F32 → F32 → Bool
  | .nan, _ => false
  | _, .nan => false
  | .posInf, .posInf => false
  | .posInf, _ => true
  | .negInf, _ => false
  | .fin _, .posInf => false
  | .fin _, .negInf => true
  | .fin a, .fin b => b < a

/-- The value of `f32::MAX`, i.e. `(2 - 2⁻²³) * 2¹²⁷`. -/
def f32Max : ℚ := 2 ^ 128 - 2 ^ 104

/-- An `f32` is finite when it is neither NaN nor an infinity; finite values
have magnitude at most `f32::MAX`. -/
def F32.finite : F32 → Bool
  | .fin q => |q| ≤ f32Max
  | _ => false

/-- Rust `f32::round`: round half away from zero. -/
def rustRound {α : Type} [LinearOrderedField α] [FloorRing α] (q : α) : ℤ :=
  if 0 ≤ q then ⌊q + 1 / 2⌋ else ⌈q - 1 / 2⌉

/-- Rust `as u32` on a (non-NaN) float: truncate toward zero and saturate
to `[0, u32::MAX]`. -/
def f32toU32 {α : Type} [LinearOrderedField α] [FloorRing α] (q : α) : ℕ :=
  if q < 0 then 0 else if (4294967295 : α) < q then 4294967295 else ⌊q⌋.toNat

/-- Rust `as u8` on a (non-NaN) float: truncate toward zero and saturate
to `[0, 255]`. -/
def f32toU8 {α : Type} [LinearOrderedField α] [FloorRing α] (q : α) : ℕ :=
  if q < 0 then 0 else if (255 : α) < q then 255 else ⌊q⌋.toNat

end FloatModel

section ZBufferModel

/-- src/main.rs `ZBuffer`: a width x height grid of `f32` depths.  The source
accesses cells through unchecked indexing, so the grid is embedded as a total
function on pixel coordinates. -/
structure ZBuffer where
  depth_buffer : ℕ → ℕ → F32

/-- src/main.rs `ZBuffer::reset`: set every cell to `val`. -/
def ZBuffer.reset (_zb : ZBuffer) (val : F32) : ZBuffer :=
  ⟨fun _ _ => val⟩

/-- src/main.rs `ZBuffer::update`: if the stored value is (IEEE) greater than
the candidate, overwrite it and return true; otherwise return false and leave
the buffer untouched. -/
def ZBuffer.update (zb : ZBuffer) (x y : ℕ) (val : F32) : Bool × ZBuffer :=
  let old := zb.depth_buffer x y
  if old.fgt val then
    (true, ⟨fun i j => if i = x ∧ j = y then val else zb.depth_buffer i j⟩)
  else
    (false, zb)

end ZBufferModel

section ColorModel

variable {α : Type} [LinearOrderedField α] [FloorRing α]

/-- The external `pixel_canvas` `Color`: an 8-bit RGB triple. -/
structure Color where
  r : ℕ
  g : ℕ
  b : ℕ
deriving DecidableEq

/-- src/main.rs `clamp_float`: clamp a channel to `[0, 1]`. -/
def clamp_float (x : α) : α :=
  if x < 0 then 0 else if x > 1 then 1 else x

/-- src/main.rs `clamp_` (in-place channel clamp, modelled functionally). -/
def clamp_ (color : Vec3 α) : Vec3 α :=
  { color with d0 := clamp_float color.r
               d1 := clamp_float color.g
               d2 := clamp_float color.b }

/-- src/main.rs `to_color`: clamp, scale by 255, round, cast each channel to
`u8`. -/
def to_color (color : Vec3 α) : Color :=
  let color := clamp_ color
  let color := color.scalar_mul_ 255
  let x : α := ((rustRound color.r : ℤ) : α)
  let y : α := ((rustRound color.g : ℤ) : α)
  let z : α := ((rustRound color.b : ℤ) : α)
  ⟨f32toU8 x, f32toU8 y, f32toU8 z⟩

end ColorModel

section Shading

variable {α : Type} [LinearOrderedField α]

/-- src/shading.rs `Material`. -/
structure Material where
  ambient : Vec3 ℝ
  diffuse : Vec3 ℝ
  reflection : Vec3 ℝ
  global_reflection : Vec3 ℝ
  specular : ℝ

/-- src/shading.rs `Light`. -/
structure Light where
  position : Vec3 ℝ
  original_position : Vec3 ℝ
  ambient : Vec3 ℝ
  diffuse : Vec3 ℝ

/-- src/data.rs `impl Length for Vec3` (Euclidean length; `ℝ` for `sqrt`). -/
noncomputable def Vec3.get_length (v : Vec3 ℝ) : ℝ :=
  let x2 := v.d0 * v.d0
  let y2 := v.d1 * v.d1
  let z2 := v.d2 * v.d2
  let l2 := x2 + y2 + z2
  Real.sqrt l2

/-- src/data.rs `Vec3::normalize_`: divide each component by the length
(undefined for the zero vector — a documented caller precondition). -/
noncomputable def Vec3.normalize_ (v : Vec3 ℝ) : Vec3 ℝ :=
  let l := v.get_length
  { v with d0 := v.d0 / l, d1 := v.d1 / l, d2 := v.d2 / l }

/-- src/shading.rs `reflect`. -/
noncomputable def reflect (incident_vec normalized_normal : Vec3 ℝ) : Vec3 ℝ :=
  incident_vec._minus
    (normalized_normal.scalar_mul (2 * normalized_normal.dot incident_vec))

/-- src/shading.rs `phong_lighting`.  Rust `f32::powf` on a positive finite
base agrees with the real power `Real.rpow`, which is what `^` denotes here;
the `r_dot_l == 0` guard is taken before any exponentiation. -/
noncomputable def phong_lighting (light_direction normalized_normal view_direction : Vec3 ℝ)
    (material : Material) (light : Light) : Vec3 ℝ :=
  let reflected_light := reflect (light_direction.scalar_mul (-1)) normalized_normal
  let n_dot_l := max 0 (normalized_normal.dot light_direction)
  let r_dot_l := max 0 (reflected_light.dot view_direction)
  let r_dot_v_pow_n : ℝ := if r_dot_l = 0 then 0 else r_dot_l ^ material.specular
  let ambient := light.ambient.product material.ambient
  let result := material.diffuse.scalar_mul n_dot_l
  let result := result.add_ (material.reflection.scalar_mul r_dot_v_pow_n)
  let result := result.product_ light.diffuse
  let result := result.add_ ambient
  result

end Shading

section Rasterizer

variable {α : Type} [LinearOrderedField α] [FloorRing α]

/-- src/shading.rs `Vertex`. -/
structure Vertex (α : Type) where
  position : Vec4 α
  idx : ℕ
deriving DecidableEq

/-- src/shading.rs `Normal`. -/
structure Normal (α : Type) where
  vec : Vec4 α
  vertex_idx : ℕ
deriving DecidableEq

/-- src/shading.rs `Triangle` (references embedded as values). -/
structure Triangle (α : Type) where
  v1 : Vertex α
  v2 : Vertex α
  v3 : Vertex α
  n1 : Normal α
  n2 : Normal α
  n3 : Normal α
deriving DecidableEq

/-- src/shading.rs `Fragment`. -/
structure Fragment (α : Type) where
  x : ℕ
  y : ℕ
  z : α
  normal_ec : Vec4 α
  coord_ec : Vec4 α
deriving DecidableEq

/-- src/shading.rs `triangle_area` (the 2D edge function). -/
def triangle_area (a b c : Vec4 α) : α :=
  (c.x - a.x) * (b.y - a.y) - (c.y - a.y) * (b.x - a.x)

/-- src/shading.rs `get_min_max`: round the three coordinates, clamp the
minimum from below and the maximum from above, and cast to `u32`. -/
def get_min_max (a b c upper_bound lower_bound : α) : ℕ × ℕ :=
  let mn : α := ((rustRound (min (min a b) c) : ℤ) : α)
  let mx : α := ((rustRound (max (max a b) c) : ℤ) : α)
  let mn := if mn < lower_bound then lower_bound else mn
  let mx := if mx > upper_bound then upper_bound else mx
  (f32toU32 mn, f32toU32 mx)

/-- src/shading.rs `interpolate` (at the `Vec4` attribute type used by the
rasterizer). -/
def interpolate (w : α × α × α) (v : Vec4 α × Vec4 α × Vec4 α) (z : α) : Vec4 α :=
  let interpolated := v.1.scalar_mul w.1
  let interpolated := interpolated.add_ (v.2.1.scalar_mul w.2.1)
  let interpolated := interpolated.add_ (v.2.2.scalar_mul w.2.2)
  interpolated.scalar_mul_ z

/-- The per-vertex projection step inside src/shading.rs `rasterization`:
clip-space transform, homogeneous divide, NDC-to-device mapping, and the
negative-reciprocal depth. -/
def projectVertex (perspective_mat : Mat4 α) (w_f h_f : α) (p : Vec4 α) : Vec4 α :=
  let v_sc := perspective_mat.mat_vec_dot p
  let v_sc := v_sc.scalar_mul_ (1 / v_sc.w)
  Vec4.new_xyzw ((v_sc.x + 1) * (1 / 2) * w_f) ((v_sc.y + 1) * (1 / 2) * h_f)
    (-1 / v_sc.z) 1

/-- The innermost loop body of src/shading.rs `rasterization`, lambda-lifted:
at pixel `(i, j)` compute the three edge values against the projected
triangle; when all are non-negative, normalize them by the signed area,
reconstruct the perspective-correct depth, interpolate the attributes and
emit the fragment. -/
def rasterPixel (triangle_ec : Triangle α) (v0_dc v1_dc v2_dc : Vec4 α)
    (area : α) (i j : ℕ) : Option (Fragment α) :=
  let p := Vec4.new_xyzw ((i : α) + 1 / 2) ((j : α) + 1 / 2) 0 0
  let w0 := triangle_area v1_dc v2_dc p
  let w1 := triangle_area v2_dc v0_dc p
  let w2 := triangle_area v0_dc v1_dc p
  if 0 ≤ w0 ∧ 0 ≤ w1 ∧ 0 ≤ w2 then
    let w0 := w0 / area
    let w1 := w1 / area
    let w2 := w2 / area
    let z := 1 / (w0 * v0_dc.z + w1 * v1_dc.z + w2 * v2_dc.z)
    let normal := interpolate (w0, w1, w2)
      (triangle_ec.n1.vec, triangle_ec.n2.vec, triangle_ec.n3.vec) z
    let coord_ec := interpolate (w0, w1, w2)
      (triangle_ec.v1.position, triangle_ec.v2.position, triangle_ec.v3.position) z
    let coord_ec := coord_ec.scalar_mul_ (1 / coord_ec.w)
    some { x := i, y := j, z := z, normal_ec := normal, coord_ec := coord_ec }
  else none

/-- The per-triangle body of src/shading.rs `rasterization` (the closure
mapped over `triangles_ec`): project the three vertices, compute the signed
area and the bounding box, and emit one fragment per covered pixel. -/
def rasterizeTriangle (triangle_ec : Triangle α) (perspective_mat : Mat4 α)
    (width height : ℕ) : List (Fragment α) :=
  let w_f : α := width
  let h_f : α := height
  let v0_dc := projectVertex perspective_mat w_f h_f triangle_ec.v1.position
  let v1_dc := projectVertex perspective_mat w_f h_f triangle_ec.v2.position
  let v2_dc := projectVertex perspective_mat w_f h_f triangle_ec.v3.position
  let area := triangle_area v0_dc v1_dc v2_dc
  let xr := get_min_max v0_dc.x v1_dc.x v2_dc.x w_f 0
  let yr := get_min_max v0_dc.y v1_dc.y v2_dc.y h_f 0
  (List.range' xr.1 (xr.2 - xr.1)).flatMap (fun (i : ℕ) =>
    (List.range' yr.1 (yr.2 - yr.1)).filterMap (fun (j : ℕ) =>
      rasterPixel triangle_ec v0_dc v1_dc v2_dc area i j))

/-- src/shading.rs `rasterization`: per-triangle fragment lists appended in
order (the parallel map is order-preserving). -/
def rasterization (triangles_ec : List (Triangle α)) (perspective_mat : Mat4 α)
    (width height : ℕ) : List (Fragment α) :=
  triangles_ec.flatMap
    (fun triangle_ec => rasterizeTriangle triangle_ec perspective_mat width height)

end Rasterizer

section Transformations

variable {α : Type} [LinearOrderedField α]

/-- src/transformations.rs `translate_obj`: right-compose a translation by
adding the weighted first three columns into the fourth. -/
def translate_obj (left_mat : Mat4 α) (translation : Vec3 α) : Mat4 α :=
  let result := left_mat
  let m0 := left_mat._get_column 0
  let m1 := left_mat._get_column 1
  let m2 := left_mat._get_column 2
  let m3 := left_mat._get_column 3
  let m0t0 := m0.scalar_mul translation.x
  let m1t1 := m1.scalar_mul translation.y
  let m2t2 := m2.scalar_mul translation.z
  let m0t0 := m0t0.add_ m1t1
  let m0t0 := m0t0.add_ m2t2
  let m0t0 := m0t0.add_ m3
  result._set_column 3 m0t0

/-- src/transformations.rs `look_at`: rows (right, camera_up, forward)
composed with translation by `-eye`. -/
noncomputable def look_at (eye center up : Vec3 ℝ) : Mat4 ℝ :=
  let look_at_direction := eye._minus center
  let look_at_direction := look_at_direction.normalize_
  let right := look_at_direction.cross up
  let right := right.normalize_
  let camera_up := right.cross look_at_direction
  let camera_up := camera_up.normalize_
  let f := look_at_direction
  let m := Mat4.identity
  let m := m._set_row 0 (Vec4.fromVec3 right 0)
  let m := m._set_row 1 (Vec4.fromVec3 camera_up 0)
  let m := m._set_row 2 (Vec4.fromVec3 f 0)
  translate_obj m (eye.scalar_mul (-1))

/-- src/transformations.rs `inverse_look_at`: the same basis as columns,
left-composed with translation by `+eye`. -/
noncomputable def inverse_look_at (eye center up : Vec3 ℝ) : Mat4 ℝ :=
  let look_at_direction := eye._minus center
  let look_at_direction := look_at_direction.normalize_
  let right := look_at_direction.cross up
  let right := right.normalize_
  let camera_up := right.cross look_at_direction
  let camera_up := camera_up.normalize_
  let f := look_at_direction
  let m := Mat4.identity
  let m := m._set_column 0 (Vec4.fromVec3 right 0)
  let m := m._set_column 1 (Vec4.fromVec3 camera_up 0)
  let m := m._set_column 2 (Vec4.fromVec3 f 0)
  let translate_mat := translate_obj Mat4.identity eye
  translate_mat.dot_mat m

end Transformations

/-! ## Helper lemmas -/

lemma clamp_float_nonneg (x : ℚ) : 0 ≤ clamp_float x := by
  unfold clamp_float; split_ifs <;> linarith

lemma clamp_float_le_one (x : ℚ) : clamp_float x ≤ 1 := by
  unfold clamp_float; split_ifs <;> linarith

lemma rustRound_close (q : ℚ) : |((rustRound q : ℤ) : ℚ) - q| ≤ 1 / 2 := by
  unfold rustRound
  split_ifs with h
  · have h1 := Int.floor_le (q + 1 / 2)
    have h2 := Int.lt_floor_add_one (q + 1 / 2)
    rw [abs_le]
    constructor <;> linarith
  · have h1 := Int.le_ceil (q - 1 / 2)
    have h2 := Int.ceil_lt_add_one (q - 1 / 2)
    rw [abs_le]
    constructor <;> linarith

lemma rustRound_nonneg (q : ℚ) (h : 0 ≤ q) : 0 ≤ rustRound q := by
  unfold rustRound
  rw [if_pos h]
  have : (0 : ℚ) ≤ q + 1 / 2 := by linarith
  exact Int.le_floor.mpr (by exact_mod_cast this)

lemma rustRound_le_of_le (q b : ℚ) (hb : ∃ n : ℤ, (n : ℚ) = b) (h0 : 0 ≤ q)
    (h : q ≤ b) : ((rustRound q : ℤ) : ℚ) ≤ b := by
  obtain ⟨n, rfl⟩ := hb
  unfold rustRound
  rw [if_pos h0]
  have : (⌊q + 1 / 2⌋ : ℤ) < n + 1 := by
    rw [Int.floor_lt]
    push_cast
    linarith
  exact_mod_cast Int.lt_add_one_iff.mp this

/-- Truncating cast of a rational that is a nonnegative integer below the
saturation bound is exact. -/
lemma f32toU8_intCast (n : ℤ) (h0 : 0 ≤ n) (h1 : n ≤ 255) :
    f32toU8 ((n : ℚ)) = n.toNat := by
  unfold f32toU8
  rw [if_neg (by exact_mod_cast not_lt.mpr h0), if_neg (by
    exact not_lt.mpr (by exact_mod_cast h1)), Int.floor_intCast]

lemma F32.fgt_nan_right (a : F32) : a.fgt F32.nan = false := by
  cases a <;> rfl

/-- A fragment produced by the per-pixel loop body carries exactly the pixel
coordinates it was produced at. -/
lemma rasterPixel_xy {tri : Triangle ℚ} {v0 v1 v2 : Vec4 ℚ} {A : ℚ} {a b : ℕ}
    {f : Fragment ℚ} (h : rasterPixel tri v0 v1 v2 A a b = some f) :
    f.x = a ∧ f.y = b := by
  simp only [rasterPixel] at h
  split at h
  · rw [Option.some.injEq] at h
    subst h
    exact ⟨rfl, rfl⟩
  · exact absurd h (by simp)

/-- The per-pixel loop body emits a fragment exactly when all three edge
values at the pixel center are non-negative. -/
lemma rasterPixel_isSome_iff {tri : Triangle ℚ} {v0 v1 v2 : Vec4 ℚ} {A : ℚ}
    {a b : ℕ} :
    (rasterPixel tri v0 v1 v2 A a b).isSome = true ↔
      (0 ≤ triangle_area v1 v2 (Vec4.new_xyzw ((a : ℚ) + 1 / 2) ((b : ℚ) + 1 / 2) 0 0) ∧
       0 ≤ triangle_area v2 v0 (Vec4.new_xyzw ((a : ℚ) + 1 / 2) ((b : ℚ) + 1 / 2) 0 0) ∧
       0 ≤ triangle_area v0 v1 (Vec4.new_xyzw ((a : ℚ) + 1 / 2) ((b : ℚ) + 1 / 2) 0 0)) := by
  simp only [rasterPixel]
  split
  · rename_i h
    simpa using h
  · rename_i h
    simpa using h

/-- Membership of a pixel in a doubly-nested `range'`/`filterMap` fragment
grid, for any per-pixel generator whose fragments carry their own pixel
coordinates. -/
lemma mem_grid_iff {β : Type} (g : ℕ → ℕ → Option β) (gx gy : β → ℕ)
    (hg : ∀ a b f, g a b = some f → gx f = a ∧ gy f = b)
    (s1 n1 s2 n2 i j : ℕ)
    (h1 : s1 ≤ i) (h2 : i < s1 + n1) (h3 : s2 ≤ j) (h4 : j < s2 + n2) :
    (∃ f ∈ (List.range' s1 n1).flatMap
        (fun a => (List.range' s2 n2).filterMap (fun b => g a b)),
      gx f = i ∧ gy f = j) ↔ (g i j).isSome = true := by
  constructor
  · rintro ⟨f, hf, hfx, hfy⟩
    simp only [List.mem_flatMap, List.mem_filterMap, List.mem_range'_1] at hf
    obtain ⟨a, _, b, _, heq⟩ := hf
    obtain ⟨ha, hb⟩ := hg a b f heq
    rw [hfx] at ha
    rw [hfy] at hb
    subst ha hb
    rw [heq]
    rfl
  · intro hsome
    obtain ⟨f, hf⟩ := Option.isSome_iff_exists.mp hsome
    exact ⟨f, by
      simp only [List.mem_flatMap, List.mem_filterMap, List.mem_range'_1]
      exact ⟨i, ⟨h1, h2⟩, j, ⟨h3, h4⟩, hf⟩, (hg i j f hf).1, (hg i j f hf).2⟩

lemma rustRound_le_nat (q : ℚ) (i : ℕ) (h : q < (i : ℚ) + 1 / 2) :
    rustRound q ≤ (i : ℤ) := by
  unfold rustRound
  split_ifs with hq
  · have : ⌊q + 1 / 2⌋ < (i : ℤ) + 1 := by
      rw [Int.floor_lt]
      push_cast
      linarith
    omega
  · have : ⌈q - 1 / 2⌉ ≤ (0 : ℤ) := by
      rw [Int.ceil_le]
      push_cast
      linarith
    omega

lemma rustRound_ge_nat (q : ℚ) (i : ℕ) (h : (i : ℚ) + 1 / 2 ≤ q) :
    (i : ℤ) + 1 ≤ rustRound q := by
  have hq : (0 : ℚ) ≤ q := le_trans (by positivity) h
  unfold rustRound
  rw [if_pos hq]
  rw [Int.le_floor]
  push_cast
  linarith

/-- The bounding box produced by `get_min_max` contains every in-image pixel
whose center lies strictly above the minimum and at most the maximum of the
three coordinates. -/
lemma get_min_max_conservative (a b c : ℚ) (bound i : ℕ)
    (hbound : bound ≤ 4294967295) (hib : i < bound)
    (hmin : min (min a b) c < (i : ℚ) + 1 / 2)
    (hmax : (i : ℚ) + 1 / 2 ≤ max (max a b) c) :
    (get_min_max a b c (bound : ℚ) 0).1 ≤ i ∧
    i < (get_min_max a b c (bound : ℚ) 0).2 ∧
    (get_min_max a b c (bound : ℚ) 0).2 ≤ bound := by
  have hrm := rustRound_le_nat (min (min a b) c) i hmin
  have hrM := rustRound_ge_nat (max (max a b) c) i hmax
  simp only [get_min_max]
  refine ⟨?_, ?_, ?_⟩
  · by_cases hneg : ((rustRound (min (min a b) c) : ℤ) : ℚ) < 0
    · rw [if_pos hneg]
      norm_num [f32toU32]
    · rw [if_neg hneg]
      have h0 : (0 : ℤ) ≤ rustRound (min (min a b) c) := by exact_mod_cast not_lt.mp hneg
      have hcap : ¬((4294967295 : ℚ) < ((rustRound (min (min a b) c) : ℤ) : ℚ)) := by
        have : ((rustRound (min (min a b) c) : ℤ) : ℚ) ≤ (i : ℚ) := by exact_mod_cast hrm
        have hi' : (i : ℚ) ≤ 4294967295 := by
          have : (i : ℚ) < (bound : ℚ) := by exact_mod_cast hib
          have : (bound : ℚ) ≤ 4294967295 := by exact_mod_cast hbound
          linarith [show (i : ℚ) < (bound : ℚ) from by exact_mod_cast hib]
        linarith
      rw [f32toU32, if_neg hneg, if_neg hcap, Int.floor_intCast]
      omega
  · by_cases hgt : ((rustRound (max (max a b) c) : ℤ) : ℚ) > (bound : ℚ)
    · rw [if_pos hgt]
      have hb0 : ¬((bound : ℚ) < 0) := not_lt.mpr (by positivity)
      have hbcap : ¬((4294967295 : ℚ) < (bound : ℚ)) := by
        exact_mod_cast not_lt.mpr (by exact_mod_cast hbound)
      rw [f32toU32, if_neg hb0, if_neg hbcap]
      rw [show ((bound : ℚ)) = ((bound : ℤ) : ℚ) by push_cast; ring, Int.floor_intCast]
      omega
    · rw [if_neg hgt]
      have hMb : rustRound (max (max a b) c) ≤ (bound : ℤ) := by
        have := not_lt.mp hgt
        exact_mod_cast this
      have hM0 : ¬(((rustRound (max (max a b) c) : ℤ) : ℚ) < 0) := by
        have : (0 : ℤ) < rustRound (max (max a b) c) := by omega
        exact_mod_cast not_lt.mpr (by exact_mod_cast this.le)
      have hcap : ¬((4294967295 : ℚ) < ((rustRound (max (max a b) c) : ℤ) : ℚ)) := by
        have h1 : ((rustRound (max (max a b) c) : ℤ) : ℚ) ≤ (bound : ℚ) := not_lt.mp hgt
        have h2 : (bound : ℚ) ≤ 4294967295 := by exact_mod_cast hbound
        linarith
      rw [f32toU32, if_neg hM0, if_neg hcap, Int.floor_intCast]
      omega
  · by_cases hgt : ((rustRound (max (max a b) c) : ℤ) : ℚ) > (bound : ℚ)
    · rw [if_pos hgt]
      have hb0 : ¬((bound : ℚ) < 0) := not_lt.mpr (by positivity)
      have hbcap : ¬((4294967295 : ℚ) < (bound : ℚ)) := by
        exact_mod_cast not_lt.mpr (by exact_mod_cast hbound)
      rw [f32toU32, if_neg hb0, if_neg hbcap]
      rw [show ((bound : ℚ)) = ((bound : ℤ) : ℚ) by push_cast; ring, Int.floor_intCast]
      omega
    · rw [if_neg hgt]
      have hMb : rustRound (max (max a b) c) ≤ (bound : ℤ) := by
        have := not_lt.mp hgt
        exact_mod_cast this
      have hM0 : ¬(((rustRound (max (max a b) c) : ℤ) : ℚ) < 0) := by
        have : (0 : ℤ) ≤ rustRound (max (max a b) c) := by omega
        exact_mod_cast not_lt.mpr (by exact_mod_cast this)
      have hcap : ¬((4294967295 : ℚ) < ((rustRound (max (max a b) c) : ℤ) : ℚ)) := by
        have h1 : ((rustRound (max (max a b) c) : ℤ) : ℚ) ≤ (bound : ℚ) := not_lt.mp hgt
        have h2 : (bound : ℚ) ≤ 4294967295 := by exact_mod_cast hbound
        linarith
      rw [f32toU32, if_neg hM0, if_neg hcap, Int.floor_intCast]
      omega

/-- A point with strictly positive barycentric-style weights lies strictly
above the minimum of the three coordinates, unless the three coordinates are
all equal to it. -/
lemma convex_coord_min (x0 x1 x2 px w0 w1 w2 : ℚ)
    (h0 : 0 < w0) (h1 : 0 < w1) (h2 : 0 < w2)
    (hsum : w0 * x0 + w1 * x1 + w2 * x2 = (w0 + w1 + w2) * px) :
    min (min x0 x1) x2 < px ∨ (x0 = px ∧ x1 = px ∧ x2 = px) := by
  by_cases hcase : min (min x0 x1) x2 < px
  · exact Or.inl hcase
  · right
    have hm0 : min (min x0 x1) x2 ≤ x0 := le_trans (min_le_left _ _) (min_le_left _ _)
    have hm1 : min (min x0 x1) x2 ≤ x1 := le_trans (min_le_left _ _) (min_le_right _ _)
    have hm2 : min (min x0 x1) x2 ≤ x2 := min_le_right _ _
    set m := min (min x0 x1) x2 with hm
    have hpm : px ≤ m := not_lt.mp hcase
    have e0 : 0 ≤ w0 * (x0 - m) := mul_nonneg h0.le (by linarith)
    have e1 : 0 ≤ w1 * (x1 - m) := mul_nonneg h1.le (by linarith)
    have e2 : 0 ≤ w2 * (x2 - m) := mul_nonneg h2.le (by linarith)
    have hsum' : w0 * (x0 - m) + w1 * (x1 - m) + w2 * (x2 - m)
        = (w0 + w1 + w2) * (px - m) := by linear_combination hsum
    have hle : (w0 + w1 + w2) * (px - m) ≤ 0 :=
      mul_nonpos_of_nonneg_of_nonpos (by linarith) (by linarith)
    have t0 : w0 * (x0 - m) = 0 := le_antisymm (by linarith) e0
    have t1 : w1 * (x1 - m) = 0 := le_antisymm (by linarith) e1
    have t2 : w2 * (x2 - m) = 0 := le_antisymm (by linarith) e2
    have hx0 : x0 = m := by
      have := (mul_eq_zero.mp t0).resolve_left (ne_of_gt h0)
      linarith
    have hx1 : x1 = m := by
      have := (mul_eq_zero.mp t1).resolve_left (ne_of_gt h1)
      linarith
    have hx2 : x2 = m := by
      have := (mul_eq_zero.mp t2).resolve_left (ne_of_gt h2)
      linarith
    have hpx : px = m := by
      have hs : (w0 + w1 + w2) * px = (w0 + w1 + w2) * m := by
        rw [← hsum]
        rw [hx0, hx1, hx2]
        ring
      have := mul_left_cancel₀ (by positivity : (w0 + w1 + w2) ≠ 0) hs
      linarith
    exact ⟨by linarith, by linarith, by linarith⟩

/-- A point with non-negative weights of positive total lies at or below the
maximum of the three coordinates. -/
lemma convex_coord_max (x0 x1 x2 px w0 w1 w2 : ℚ)
    (h0 : 0 ≤ w0) (h1 : 0 ≤ w1) (h2 : 0 ≤ w2) (hpos : 0 < w0 + w1 + w2)
    (hsum : w0 * x0 + w1 * x1 + w2 * x2 = (w0 + w1 + w2) * px) :
    px ≤ max (max x0 x1) x2 := by
  have hM0 : x0 ≤ max (max x0 x1) x2 := le_trans (le_max_left _ _) (le_max_left _ _)
  have hM1 : x1 ≤ max (max x0 x1) x2 := le_trans (le_max_right _ _) (le_max_left _ _)
  have hM2 : x2 ≤ max (max x0 x1) x2 := le_max_right _ _
  set M := max (max x0 x1) x2 with hM
  by_contra hlt
  push_neg at hlt
  have e0 : 0 ≤ w0 * (M - x0) := mul_nonneg h0 (by linarith)
  have e1 : 0 ≤ w1 * (M - x1) := mul_nonneg h1 (by linarith)
  have e2 : 0 ≤ w2 * (M - x2) := mul_nonneg h2 (by linarith)
  have hsum' : w0 * (M - x0) + w1 * (M - x1) + w2 * (M - x2)
      = (w0 + w1 + w2) * (M - px) := by linear_combination -hsum
  have : 0 < (w0 + w1 + w2) * (px - M) := mul_pos hpos (by linarith)
  nlinarith

lemma Vec4.x_new_xyzw {α : Type} [LinearOrderedField α] (x y z w : α) :
    (Vec4.new_xyzw x y z w).x = x := rfl

lemma Vec4.y_new_xyzw {α : Type} [LinearOrderedField α] (x y z w : α) :
    (Vec4.new_xyzw x y z w).y = y := rfl

/-- The three edge values at a point sum to the triangle's signed area, and
weighted coordinates reproduce the point (the reproduction identity of the
edge function). -/
lemma edge_sum_and_reproduce (v0 v1 v2 p : Vec4 ℚ) :
    triangle_area v1 v2 p + triangle_area v2 v0 p + triangle_area v0 v1 p
      = triangle_area v0 v1 v2 ∧
    triangle_area v1 v2 p * v0.x + triangle_area v2 v0 p * v1.x
        + triangle_area v0 v1 p * v2.x
      = (triangle_area v1 v2 p + triangle_area v2 v0 p + triangle_area v0 v1 p) * p.x ∧
    triangle_area v1 v2 p * v0.y + triangle_area v2 v0 p * v1.y
        + triangle_area v0 v1 p * v2.y
      = (triangle_area v1 v2 p + triangle_area v2 v0 p + triangle_area v0 v1 p) * p.y := by
  refine ⟨?_, ?_, ?_⟩ <;>
    · simp only [triangle_area, Vec4.x, Vec4.y]
      ring

/-! ### Vector algebra facts for the look-at transform -/

lemma dot_eq_raw (v w : Vec3 ℝ) :
    Vec3.dot v w = v.d0 * w.d0 + v.d1 * w.d1 + v.d2 * w.d2 := rfl

lemma get_length_eq_sqrt_dot (v : Vec3 ℝ) :
    v.get_length = Real.sqrt (Vec3.dot v v) := rfl

lemma cross_d0 (a b : Vec3 ℝ) : (a.cross b).d0 = a.d1 * b.d2 - a.d2 * b.d1 := rfl

lemma cross_d1 (a b : Vec3 ℝ) : (a.cross b).d1 = a.d2 * b.d0 - a.d0 * b.d2 := rfl

lemma cross_d2 (a b : Vec3 ℝ) : (a.cross b).d2 = a.d0 * b.d1 - a.d1 * b.d0 := rfl

lemma new_xyz_d0 (x y z : ℝ) : (Vec3.new_xyz x y z).d0 = x := rfl

lemma new_xyz_d1 (x y z : ℝ) : (Vec3.new_xyz x y z).d1 = y := rfl

lemma new_xyz_d2 (x y z : ℝ) : (Vec3.new_xyz x y z).d2 = z := rfl

lemma minus_d0 (v w : Vec3 ℝ) : (v._minus w).d0 = v.d0 - w.d0 := rfl

lemma minus_d1 (v w : Vec3 ℝ) : (v._minus w).d1 = v.d1 - w.d1 := rfl

lemma minus_d2 (v w : Vec3 ℝ) : (v._minus w).d2 = v.d2 - w.d2 := rfl

/-- Normalizing a vector of positive squared length yields a unit vector. -/
lemma normalize_self_dot (v : Vec3 ℝ) (hv : 0 < Vec3.dot v v) :
    Vec3.dot v.normalize_ v.normalize_ = 1 := by
  have hv' : 0 < v.d0 * v.d0 + v.d1 * v.d1 + v.d2 * v.d2 := by
    rw [dot_eq_raw] at hv
    exact hv
  have hLL : Real.sqrt (v.d0 * v.d0 + v.d1 * v.d1 + v.d2 * v.d2) *
      Real.sqrt (v.d0 * v.d0 + v.d1 * v.d1 + v.d2 * v.d2)
      = v.d0 * v.d0 + v.d1 * v.d1 + v.d2 * v.d2 := Real.mul_self_sqrt hv'.le
  have hL0 : Real.sqrt (v.d0 * v.d0 + v.d1 * v.d1 + v.d2 * v.d2) ≠ 0 :=
    ne_of_gt (Real.sqrt_pos.mpr hv')
  simp only [Vec3.normalize_, Vec3.get_length, dot_eq_raw]
  field_simp

lemma normalize_dot_left (v w : Vec3 ℝ) :
    Vec3.dot v.normalize_ w = Vec3.dot v w / v.get_length := by
  simp only [Vec3.normalize_, dot_eq_raw, get_length_eq_sqrt_dot]
  ring

lemma cross_dot_left (a b : Vec3 ℝ) : Vec3.dot (a.cross b) a = 0 := by
  simp only [Vec3.cross, dot_eq_raw, Vec3.x, Vec3.y, Vec3.z]
  ring

lemma cross_dot_right (a b : Vec3 ℝ) : Vec3.dot (a.cross b) b = 0 := by
  simp only [Vec3.cross, dot_eq_raw, Vec3.x, Vec3.y, Vec3.z]
  ring

/-- The Lagrange identity for the squared length of a cross product. -/
lemma cross_lagrange (a b : Vec3 ℝ) :
    Vec3.dot (a.cross b) (a.cross b)
      = Vec3.dot a a * Vec3.dot b b - Vec3.dot a b * Vec3.dot a b := by
  simp only [Vec3.cross, dot_eq_raw, Vec3.x, Vec3.y, Vec3.z]
  ring

lemma normalize_of_unit (v : Vec3 ℝ) (hv : Vec3.dot v v = 1) :
    v.normalize_ = v := by
  have hlen : v.get_length = 1 := by
    rw [get_length_eq_sqrt_dot, hv, Real.sqrt_one]
  simp [Vec3.normalize_, hlen]

lemma normalized_cross_dot (d up : Vec3 ℝ) :
    Vec3.dot (d.normalize_.cross up) (d.normalize_.cross up)
      = Vec3.dot (d.cross up) (d.cross up) / (d.get_length * d.get_length) := by
  simp only [Vec3.normalize_, Vec3.cross, Vec3.get_length, dot_eq_raw,
    Vec3.x, Vec3.y, Vec3.z]
  ring

lemma cross_norm_dot (d up : Vec3 ℝ) :
    Vec3.dot (d.normalize_.cross up) d = 0 := by
  simp only [Vec3.normalize_, Vec3.cross, Vec3.get_length, dot_eq_raw,
    Vec3.x, Vec3.y, Vec3.z]
  ring

lemma cross_with_norm_dot (r d : Vec3 ℝ) :
    Vec3.dot (r.cross d.normalize_) d = 0 := by
  simp only [Vec3.normalize_, Vec3.cross, Vec3.get_length, dot_eq_raw,
    Vec3.x, Vec3.y, Vec3.z]
  ring

/-- Completeness of the orthonormal frame `(r, r x f, f)`: expanding any
vector against it reproduces the vector, componentwise. -/
lemma basis_reproduce (r f v : Vec3 ℝ) (hr : Vec3.dot r r = 1)
    (hf : Vec3.dot f f = 1) (hrf : Vec3.dot r f = 0) :
    Vec3.dot r v * r.d0 + Vec3.dot (r.cross f) v * (r.cross f).d0
        + Vec3.dot f v * f.d0 = v.d0 ∧
    Vec3.dot r v * r.d1 + Vec3.dot (r.cross f) v * (r.cross f).d1
        + Vec3.dot f v * f.d1 = v.d1 ∧
    Vec3.dot r v * r.d2 + Vec3.dot (r.cross f) v * (r.cross f).d2
        + Vec3.dot f v * f.d2 = v.d2 := by
  simp only [Vec3.cross, dot_eq_raw, Vec3.x, Vec3.y, Vec3.z] at hr hf hrf ⊢
  refine ⟨?_, ?_, ?_⟩
  · linear_combination
      (v.d0 * (f.d0 * f.d0 + f.d1 * f.d1 + f.d2 * f.d2)
        - (f.d0 * v.d0 + f.d1 * v.d1 + f.d2 * v.d2) * f.d0) * hr
      + (v.d0 - (r.d0 * v.d0 + r.d1 * v.d1 + r.d2 * v.d2) * r.d0) * hf
      + (r.d0 * (f.d0 * v.d0 + f.d1 * v.d1 + f.d2 * v.d2)
        + f.d0 * (r.d0 * v.d0 + r.d1 * v.d1 + r.d2 * v.d2)
        - v.d0 * (r.d0 * f.d0 + r.d1 * f.d1 + r.d2 * f.d2)) * hrf
  · linear_combination
      (v.d1 * (f.d0 * f.d0 + f.d1 * f.d1 + f.d2 * f.d2)
        - (f.d0 * v.d0 + f.d1 * v.d1 + f.d2 * v.d2) * f.d1) * hr
      + (v.d1 - (r.d0 * v.d0 + r.d1 * v.d1 + r.d2 * v.d2) * r.d1) * hf
      + (r.d1 * (f.d0 * v.d0 + f.d1 * v.d1 + f.d2 * v.d2)
        + f.d1 * (r.d0 * v.d0 + r.d1 * v.d1 + r.d2 * v.d2)
        - v.d1 * (r.d0 * f.d0 + r.d1 * f.d1 + r.d2 * f.d2)) * hrf
  · linear_combination
      (v.d2 * (f.d0 * f.d0 + f.d1 * f.d1 + f.d2 * f.d2)
        - (f.d0 * v.d0 + f.d1 * v.d1 + f.d2 * v.d2) * f.d2) * hr
      + (v.d2 - (r.d0 * v.d0 + r.d1 * v.d1 + r.d2 * v.d2) * r.d2) * hf
      + (r.d2 * (f.d0 * v.d0 + f.d1 * v.d1 + f.d2 * v.d2)
        + f.d2 * (r.d0 * v.d0 + r.d1 * v.d1 + r.d2 * v.d2)
        - v.d2 * (r.d0 * f.d0 + r.d1 * f.d1 + r.d2 * f.d2)) * hrf

set_option maxHeartbeats 800000 in
/-- Closed form of a `look_at` matrix applied to a homogeneous vector: the
rotation rows are the right / camera-up / forward basis and the translation
column carries the negated basis-projected eye position. -/
lemma look_at_apply (eye center up : Vec3 ℝ) (q : Vec4 ℝ) :
    (look_at eye center up).mat_vec_dot q =
      (let f := (eye._minus center).normalize_
       let r := (f.cross up).normalize_
       let u := (r.cross f).normalize_
       Vec4.new_xyzw
        (r.d0 * q.d0 + r.d1 * q.d1 + r.d2 * q.d2
          - (r.d0 * eye.d0 + r.d1 * eye.d1 + r.d2 * eye.d2) * q.d3)
        (u.d0 * q.d0 + u.d1 * q.d1 + u.d2 * q.d2
          - (u.d0 * eye.d0 + u.d1 * eye.d1 + u.d2 * eye.d2) * q.d3)
        (f.d0 * q.d0 + f.d1 * q.d1 + f.d2 * q.d2
          - (f.d0 * eye.d0 + f.d1 * eye.d1 + f.d2 * eye.d2) * q.d3)
        q.d3) := by
  simp only [look_at]
  set f := (eye._minus center).normalize_ with hf
  set r := (f.cross up).normalize_ with hr
  set u := (r.cross f).normalize_ with hu
  simp only [translate_obj, Mat4._set_row, Mat4._set_column, Mat4._set_entry,
    Mat4.mat_vec_dot, Mat4._get_column, Mat4._get_entry, Mat4.get,
    Mat4.transposed_get, Mat4.identity]
  norm_num [Vec4.fromVec3, Vec4.new_xyzw, Vec4.add_, Vec4.scalar_mul,
    Vec3.scalar_mul, Vec3.new_xyz, Vec3.x, Vec3.y, Vec3.z, Vec4.x, Vec4.y,
    Vec4.z, Vec4.w, Vec4.mk.injEq]
  refine ⟨?_, ?_, ?_⟩ <;> ring

set_option maxHeartbeats 800000 in
/-- Closed form of an `inverse_look_at` matrix applied to a homogeneous
vector: the rotation columns are the same basis and the translation column
carries the eye position. -/
lemma inverse_look_at_apply (eye center up : Vec3 ℝ) (q : Vec4 ℝ) :
    (inverse_look_at eye center up).mat_vec_dot q =
      (let f := (eye._minus center).normalize_
       let r := (f.cross up).normalize_
       let u := (r.cross f).normalize_
       Vec4.new_xyzw
        (r.d0 * q.d0 + u.d0 * q.d1 + f.d0 * q.d2 + eye.d0 * q.d3)
        (r.d1 * q.d0 + u.d1 * q.d1 + f.d1 * q.d2 + eye.d1 * q.d3)
        (r.d2 * q.d0 + u.d2 * q.d1 + f.d2 * q.d2 + eye.d2 * q.d3)
        q.d3) := by
  simp only [inverse_look_at]
  set f := (eye._minus center).normalize_ with hf
  set r := (f.cross up).normalize_ with hr
  set u := (r.cross f).normalize_ with hu
  simp only [translate_obj, Mat4._set_row, Mat4._set_column, Mat4._set_entry,
    Mat4.dot_mat, Mat4.mat_vec_dot, Mat4._get_column, Mat4._get_entry, Mat4.get,
    Mat4.transposed_get, Mat4.identity]
  norm_num [Vec4.fromVec3, Vec4.new_xyzw, Vec4.add_, Vec4.scalar_mul,
    Vec3.scalar_mul, Vec3.new_xyz, Vec3.x, Vec3.y, Vec3.z, Vec4.x, Vec4.y,
    Vec4.z, Vec4.w, Vec4.mk.injEq]

/-! ## Claim theorems -/

/-- C9: for every `Mat4` (respectively `Mat3`) `m` and in-bounds indices
`r`, `c`, `transpose(m).get_entry r c` returns the same value as
`m.get_entry c r`, and the double transpose has the same logical entries as
`m` at every in-bounds index. -/
theorem claim_C9 (m4 : Mat4 ℚ) (m3 : Mat3 ℚ) (r c : ℕ) :
    (r ≤ 3 → c ≤ 3 →
      m4.transpose.get_entry r c = m4.get_entry c r ∧
      m4.transpose.transpose.get_entry r c = m4.get_entry r c) ∧
    (r ≤ 2 → c ≤ 2 →
      m3.transpose.get_entry r c = m3.get_entry c r ∧
      m3.transpose.transpose.get_entry r c = m3.get_entry r c) := by
  constructor
  · intro hr hc
    have h1 : ¬(r > 3 ∨ c > 3) := by omega
    have h2 : ¬(c > 3 ∨ r > 3) := by omega
    cases hm : m4.transposed <;>
      simp [Mat4.get_entry, Mat4.transpose, Mat4.get, Mat4.transposed_get, h1, h2, hm]
  · intro hr hc
    have h1 : ¬(r > 2 ∨ c > 2) := by omega
    have h2 : ¬(c > 2 ∨ r > 2) := by omega
    cases hm : m3.transposed <;>
      simp [Mat3.get_entry, Mat3.transpose, Mat3.get, Mat3.transposed_get, h1, h2, hm]

/-- Witness for C9 at a concrete matrix pair and index. -/
theorem claim_C9_witness :
    (1 : ℕ) ≤ 3 ∧ (2 : ℕ) ≤ 3 ∧ (1 : ℕ) ≤ 2 ∧ (2 : ℕ) ≤ 2 ∧
    ((Mat4.mk false fun i j => (i : ℚ) + 10 * j).transpose.get_entry 1 2 =
      (Mat4.mk false fun i j => (i : ℚ) + 10 * j).get_entry 2 1) ∧
    ((Mat3.mk true fun i j => (i : ℚ) + 10 * j).transpose.get_entry 2 1 =
      (Mat3.mk true fun i j => (i : ℚ) + 10 * j).get_entry 1 2) :=
  ⟨by decide, by decide, by decide, by decide,
    ((claim_C9 (Mat4.mk false fun i j => (i : ℚ) + 10 * j)
      (Mat3.mk true fun i j => (i : ℚ) + 10 * j) 1 2).1
        (by decide) (by decide)).1,
    ((claim_C9 (Mat4.mk false fun i j => (i : ℚ) + 10 * j)
      (Mat3.mk true fun i j => (i : ℚ) + 10 * j) 2 1).2
        (by decide) (by decide)).1⟩

/-- C8: for same-size vectors, `add` and `minus` return a
`DimensionMismatchError` carrying the two apparent shapes exactly when the
transposed flags differ, and otherwise the componentwise sum (difference)
carrying the left operand's flag.  (Operands are values in this embedding,
so neither is ever modified.) -/
theorem claim_C8 (a b : Vec3 ℚ) (u v : Vec4 ℚ) :
    (a.transposed ≠ b.transposed →
      a.add b = .error ⟨if a.transposed then (1, 3) else (3, 1),
                        if b.transposed then (1, 3) else (3, 1)⟩ ∧
      a.minus b = .error ⟨if a.transposed then (1, 3) else (3, 1),
                          if b.transposed then (1, 3) else (3, 1)⟩) ∧
    (a.transposed = b.transposed →
      a.add b = .ok ⟨a.transposed, a.d0 + b.d0, a.d1 + b.d1, a.d2 + b.d2⟩ ∧
      a.minus b = .ok ⟨a.transposed, a.d0 - b.d0, a.d1 - b.d1, a.d2 - b.d2⟩) ∧
    (u.transposed ≠ v.transposed →
      u.add v = .error ⟨if u.transposed then (1, 4) else (4, 1),
                        if v.transposed then (1, 4) else (4, 1)⟩ ∧
      u.minus v = .error ⟨if u.transposed then (1, 4) else (4, 1),
                          if v.transposed then (1, 4) else (4, 1)⟩) ∧
    (u.transposed = v.transposed →
      u.add v = .ok ⟨u.transposed, u.d0 + v.d0, u.d1 + v.d1, u.d2 + v.d2, u.d3 + v.d3⟩ ∧
      u.minus v = .ok ⟨u.transposed, u.d0 - v.d0, u.d1 - v.d1, u.d2 - v.d2, u.d3 - v.d3⟩) := by
  refine ⟨fun h => ⟨?_, ?_⟩, fun h => ⟨?_, ?_⟩, fun h => ⟨?_, ?_⟩, fun h => ⟨?_, ?_⟩⟩ <;>
    simp [Vec3.add, Vec3.minus, Vec4.add, Vec4.minus, Vec3.x, Vec3.y, Vec3.z,
      Vec4.x, Vec4.y, Vec4.z, Vec4.w, h]

/-- Witness for C8 at concrete mismatched and matched operands. -/
theorem claim_C8_witness :
    ((Vec3.mk true 1 2 3 : Vec3 ℚ).transposed ≠ (Vec3.mk false 4 5 6 : Vec3 ℚ).transposed) ∧
    (Vec3.mk true 1 2 3 : Vec3 ℚ).add (Vec3.mk false 4 5 6) =
      .error ⟨(1, 3), (3, 1)⟩ ∧
    ((Vec4.mk false 1 2 3 4 : Vec4 ℚ).transposed = (Vec4.mk false 5 6 7 8 : Vec4 ℚ).transposed) ∧
    (Vec4.mk false 1 2 3 4 : Vec4 ℚ).minus (Vec4.mk false 5 6 7 8) =
      .ok ⟨false, -4, -4, -4, -4⟩ := by
  refine ⟨by decide, ?_, by decide, ?_⟩
  · have h := ((claim_C8 (Vec3.mk true 1 2 3) (Vec3.mk false 4 5 6)
      (Vec4.mk false 1 2 3 4) (Vec4.mk false 5 6 7 8)).1 (by decide)).1
    simpa using h
  · have h := ((claim_C8 (Vec3.mk true 1 2 3) (Vec3.mk false 4 5 6)
      (Vec4.mk false 1 2 3 4) (Vec4.mk false 5 6 7 8)).2.2.2 (by decide)).2
    rw [h]
    norm_num

/-- C2 (amended): `update(x, y, d)` accepts and overwrites exactly when `d`
is strictly smaller than the stored value (in the IEEE order used by the
source's `>`), otherwise rejects leaving every cell unchanged; and after
`reset(f32::MAX)` the first update at any pixel with a finite depth
strictly below `f32::MAX` returns true.  (The original claim, for *any*
finite depth, fails at `d = f32::MAX`; see the counterexample.) -/
theorem claim_C2 (zb : ZBuffer) (x y : ℕ) (d : F32) :
    ((zb.update x y d).1 = true ↔ (zb.depth_buffer x y).fgt d = true) ∧
    ((zb.update x y d).1 = true →
      (zb.update x y d).2.depth_buffer x y = d ∧
      ∀ i j : ℕ, ¬(i = x ∧ j = y) →
        (zb.update x y d).2.depth_buffer i j = zb.depth_buffer i j) ∧
    ((zb.update x y d).1 = false → (zb.update x y d).2 = zb) ∧
    (∀ q : ℚ, -f32Max ≤ q → q < f32Max →
      ((zb.reset (F32.fin f32Max)).update x y (F32.fin q)).1 = true) := by
  refine ⟨?_, ?_, ?_, ?_⟩
  · by_cases h : (zb.depth_buffer x y).fgt d = true <;> simp [ZBuffer.update, h]
  · intro ht
    by_cases h : (zb.depth_buffer x y).fgt d = true
    · exact ⟨by simp [ZBuffer.update, h], fun i j hij => by simp [ZBuffer.update, h, hij]⟩
    · simp [ZBuffer.update, h] at ht
  · intro hf
    by_cases h : (zb.depth_buffer x y).fgt d = true
    · simp [ZBuffer.update, h] at hf
    · simp [ZBuffer.update, h]
  · intro q _ hq2
    have h : (F32.fin f32Max).fgt (F32.fin q) = true := by
      simp [F32.fgt]
      exact hq2
    simp [ZBuffer.update, ZBuffer.reset, h]

/-- Witness for C2 at a concrete buffer, pixel and depth. -/
theorem claim_C2_witness :
    ((ZBuffer.mk fun _ _ => F32.fin 5).update 0 0 (F32.fin 3)).1 = true ∧
    (-f32Max ≤ (0 : ℚ)) ∧ ((0 : ℚ) < f32Max) ∧
    (((ZBuffer.mk fun _ _ => F32.fin 5).reset (F32.fin f32Max)).update 2 3
      (F32.fin 0)).1 = true :=
  ⟨(claim_C2 (ZBuffer.mk fun _ _ => F32.fin 5) 0 0 (F32.fin 3)).1.mpr (by decide),
    by norm_num [f32Max], by norm_num [f32Max],
    (claim_C2 (ZBuffer.mk fun _ _ => F32.fin 5) 2 3 (F32.fin 0)).2.2.2 0
      (by norm_num [f32Max]) (by norm_num [f32Max])⟩

/-- C2 counterexample: `f32::MAX` is a finite depth, yet the first update
after `reset(f32::MAX)` with candidate `f32::MAX` is rejected, because
`MAX > MAX` is false. -/
theorem claim_C2_counterexample :
    F32.finite (F32.fin f32Max) = true ∧
    ((ZBuffer.mk fun _ _ => F32.fin 0).reset (F32.fin f32Max)).update 0 0
        (F32.fin f32Max) =
      (false, (ZBuffer.mk fun _ _ => F32.fin 0).reset (F32.fin f32Max)) := by
  have h0 : (0 : ℚ) ≤ f32Max := by norm_num [f32Max]
  refine ⟨by simp [F32.finite, abs_of_nonneg h0], ?_⟩
  simp [ZBuffer.update, ZBuffer.reset, F32.fgt]

/-- C6: `to_color` clamps each channel to `[0,1]`, scales by 255 and rounds
to the nearest 8-bit value; in particular `(-0.5, 0.5, 1.5)` converts to
`(0, 128, 255)`. -/
theorem claim_C6 (color : Vec3 ℚ) :
    ((to_color color).r ≤ 255 ∧ (to_color color).g ≤ 255 ∧ (to_color color).b ≤ 255) ∧
    |((to_color color).r : ℚ) - clamp_float color.r * 255| ≤ 1 / 2 ∧
    |((to_color color).g : ℚ) - clamp_float color.g * 255| ≤ 1 / 2 ∧
    |((to_color color).b : ℚ) - clamp_float color.b * 255| ≤ 1 / 2 ∧
    to_color (Vec3.new_xyz (-(1 / 2)) (1 / 2) (3 / 2) : Vec3 ℚ) = ⟨0, 128, 255⟩ := by
  have channel : ∀ q : ℚ,
      f32toU8 ((rustRound (clamp_float q * 255) : ℤ) : ℚ) ≤ 255 ∧
      |((f32toU8 ((rustRound (clamp_float q * 255) : ℤ) : ℚ) : ℕ) : ℚ)
        - clamp_float q * 255| ≤ 1 / 2 := by
    intro q
    set v : ℚ := clamp_float q * 255 with hv
    have h0 : 0 ≤ v := mul_nonneg (clamp_float_nonneg q) (by norm_num)
    have h255 : v ≤ 255 := by
      have := clamp_float_le_one q
      nlinarith [clamp_float_nonneg q]
    have hr0 : 0 ≤ rustRound v := rustRound_nonneg v h0
    have hrle : ((rustRound v : ℤ) : ℚ) ≤ 255 :=
      rustRound_le_of_le v 255 ⟨255, by norm_num⟩ h0 h255
    have hrle' : rustRound v ≤ 255 := by exact_mod_cast hrle
    have hcast : f32toU8 ((rustRound v : ℤ) : ℚ) = (rustRound v).toNat :=
      f32toU8_intCast (rustRound v) hr0 hrle'
    refine ⟨?_, ?_⟩
    · rw [hcast]
      omega
    · rw [hcast]
      have h9 : ((rustRound v).toNat : ℤ) = rustRound v := Int.toNat_of_nonneg hr0
      have h10 : (((rustRound v).toNat : ℕ) : ℚ) = ((rustRound v : ℤ) : ℚ) := by
        exact_mod_cast h9
      rw [h10]
      exact rustRound_close v
  refine ⟨⟨?_, ?_, ?_⟩, ?_, ?_, ?_, by
    norm_num [to_color, clamp_, Vec3.scalar_mul_, clamp_float, rustRound, f32toU8,
      Vec3.r, Vec3.g, Vec3.b, Vec3.new_xyz]
    decide⟩ <;>

    simp only [to_color, clamp_, Vec3.scalar_mul_, Vec3.r, Vec3.g, Vec3.b] <;>
    first
      | exact (channel color.d0).1 | exact (channel color.d1).1
      | exact (channel color.d2).1 | exact (channel color.d0).2
      | exact (channel color.d1).2 | exact (channel color.d2).2

/-- C1: inside the traversed bounding box, a fragment for pixel `(i, j)` is
emitted by the rasterizer exactly when all three edge-function values at the
pixel center are non-negative; and when the triangle's total signed area is
nonzero the three barycentric weights (edge values divided by the area) sum
to 1 exactly. -/
theorem claim_C1 (tri : Triangle ℚ) (persp : Mat4 ℚ) (width height i j : ℕ)
    (v0_dc v1_dc v2_dc p : Vec4 ℚ) (area w0 w1 w2 : ℚ)
    (hv0 : v0_dc = projectVertex persp width height tri.v1.position)
    (hv1 : v1_dc = projectVertex persp width height tri.v2.position)
    (hv2 : v2_dc = projectVertex persp width height tri.v3.position)
    (harea : area = triangle_area v0_dc v1_dc v2_dc)
    (hp : p = Vec4.new_xyzw ((i : ℚ) + 1 / 2) ((j : ℚ) + 1 / 2) 0 0)
    (hw0 : w0 = triangle_area v1_dc v2_dc p)
    (hw1 : w1 = triangle_area v2_dc v0_dc p)
    (hw2 : w2 = triangle_area v0_dc v1_dc p)
    (hxlo : (get_min_max v0_dc.x v1_dc.x v2_dc.x (width : ℚ) 0).1 ≤ i)
    (hxhi : i < (get_min_max v0_dc.x v1_dc.x v2_dc.x (width : ℚ) 0).2)
    (hylo : (get_min_max v0_dc.y v1_dc.y v2_dc.y (height : ℚ) 0).1 ≤ j)
    (hyhi : j < (get_min_max v0_dc.y v1_dc.y v2_dc.y (height : ℚ) 0).2) :
    ((∃ f ∈ rasterizeTriangle tri persp width height, f.x = i ∧ f.y = j) ↔
      0 ≤ w0 ∧ 0 ≤ w1 ∧ 0 ≤ w2) ∧
    (area ≠ 0 → w0 / area + w1 / area + w2 / area = 1) := by
  subst hp hw0 hw1 hw2
  constructor
  · have hunf : rasterizeTriangle tri persp width height =
        (List.range' (get_min_max v0_dc.x v1_dc.x v2_dc.x (width : ℚ) 0).1
            ((get_min_max v0_dc.x v1_dc.x v2_dc.x (width : ℚ) 0).2 -
              (get_min_max v0_dc.x v1_dc.x v2_dc.x (width : ℚ) 0).1)).flatMap
          (fun a => (List.range' (get_min_max v0_dc.y v1_dc.y v2_dc.y (height : ℚ) 0).1
              ((get_min_max v0_dc.y v1_dc.y v2_dc.y (height : ℚ) 0).2 -
                (get_min_max v0_dc.y v1_dc.y v2_dc.y (height : ℚ) 0).1)).filterMap
            (fun b => rasterPixel tri v0_dc v1_dc v2_dc area a b)) := by
      subst hv0 hv1 hv2 harea
      rfl
    rw [hunf]
    exact (mem_grid_iff (rasterPixel tri v0_dc v1_dc v2_dc area) Fragment.x Fragment.y
      (fun a b f h => rasterPixel_xy h)
      (get_min_max v0_dc.x v1_dc.x v2_dc.x (width : ℚ) 0).1
      ((get_min_max v0_dc.x v1_dc.x v2_dc.x (width : ℚ) 0).2 -
        (get_min_max v0_dc.x v1_dc.x v2_dc.x (width : ℚ) 0).1)
      (get_min_max v0_dc.y v1_dc.y v2_dc.y (height : ℚ) 0).1
      ((get_min_max v0_dc.y v1_dc.y v2_dc.y (height : ℚ) 0).2 -
        (get_min_max v0_dc.y v1_dc.y v2_dc.y (height : ℚ) 0).1)
      i j hxlo (by omega) hylo (by omega)).trans rasterPixel_isSome_iff
  · intro hA
    rw [div_add_div_same, div_add_div_same]
    have key : triangle_area v1_dc v2_dc (Vec4.new_xyzw ((i : ℚ) + 1 / 2) ((j : ℚ) + 1 / 2) 0 0)
        + triangle_area v2_dc v0_dc (Vec4.new_xyzw ((i : ℚ) + 1 / 2) ((j : ℚ) + 1 / 2) 0 0)
        + triangle_area v0_dc v1_dc (Vec4.new_xyzw ((i : ℚ) + 1 / 2) ((j : ℚ) + 1 / 2) 0 0)
        = triangle_area v0_dc v1_dc v2_dc := by
      simp only [triangle_area, Vec4.x, Vec4.y, Vec4.new_xyzw]
      ring
    rw [harea, key]
    exact div_self (by rw [harea] at hA; exact hA)

/-- Witness for C1: a concrete covered pixel of a concrete projected
triangle. -/
theorem claim_C1_witness :
    (∃ f ∈ rasterizeTriangle
        (Triangle.mk ⟨Vec4.new_xyzw (-(3 / 4)) (-(3 / 4)) (-1) 1, 0⟩
          ⟨Vec4.new_xyzw (-(3 / 4)) (1 / 4) (-1) 1, 1⟩
          ⟨Vec4.new_xyzw (1 / 4) (-(3 / 4)) (-1) 1, 2⟩
          ⟨Vec4.new_xyzw 0 0 1 0, 0⟩ ⟨Vec4.new_xyzw 0 0 1 0, 1⟩
          ⟨Vec4.new_xyzw 0 0 1 0, 2⟩ : Triangle ℚ)
        Mat4.identity 4 4, f.x = 1 ∧ f.y = 1) ∧
    (triangle_area
        (projectVertex (Mat4.identity : Mat4 ℚ) ((4 : ℕ) : ℚ) ((4 : ℕ) : ℚ)
          (Vec4.new_xyzw (-(3 / 4)) (-(3 / 4)) (-1) 1))
        (projectVertex (Mat4.identity : Mat4 ℚ) ((4 : ℕ) : ℚ) ((4 : ℕ) : ℚ)
          (Vec4.new_xyzw (-(3 / 4)) (1 / 4) (-1) 1))
        (projectVertex (Mat4.identity : Mat4 ℚ) ((4 : ℕ) : ℚ) ((4 : ℕ) : ℚ)
          (Vec4.new_xyzw (1 / 4) (-(3 / 4)) (-1) 1))
      ≠ 0) := by
  have hpv1 : projectVertex Mat4.identity ((4 : ℕ) : ℚ) ((4 : ℕ) : ℚ)
      (Vec4.new_xyzw (-(3 / 4)) (-(3 / 4)) (-1) 1) = Vec4.new_xyzw (1 / 2) (1 / 2) 1 1 := by
    norm_num [projectVertex, Mat4.identity, Mat4.mat_vec_dot, Mat4._get_entry, Mat4.get,
      Mat4.transposed_get, Vec4.new_xyzw, Vec4.scalar_mul_, Vec4.x, Vec4.y, Vec4.z, Vec4.w]
  have hpv2 : projectVertex Mat4.identity ((4 : ℕ) : ℚ) ((4 : ℕ) : ℚ)
      (Vec4.new_xyzw (-(3 / 4)) (1 / 4) (-1) 1) = Vec4.new_xyzw (1 / 2) (5 / 2) 1 1 := by
    norm_num [projectVertex, Mat4.identity, Mat4.mat_vec_dot, Mat4._get_entry, Mat4.get,
      Mat4.transposed_get, Vec4.new_xyzw, Vec4.scalar_mul_, Vec4.x, Vec4.y, Vec4.z, Vec4.w]
  have hpv3 : projectVertex Mat4.identity ((4 : ℕ) : ℚ) ((4 : ℕ) : ℚ)
      (Vec4.new_xyzw (1 / 4) (-(3 / 4)) (-1) 1) = Vec4.new_xyzw (5 / 2) (1 / 2) 1 1 := by
    norm_num [projectVertex, Mat4.identity, Mat4.mat_vec_dot, Mat4._get_entry, Mat4.get,
      Mat4.transposed_get, Vec4.new_xyzw, Vec4.scalar_mul_, Vec4.x, Vec4.y, Vec4.z, Vec4.w]
  have hbox : get_min_max (1 / 2 : ℚ) (1 / 2) (5 / 2) ((4 : ℕ) : ℚ) 0 = (1, 3) := by
    norm_num [get_min_max, rustRound, f32toU32]
    decide
  have hboxy : get_min_max (1 / 2 : ℚ) (5 / 2) (1 / 2) ((4 : ℕ) : ℚ) 0 = (1, 3) := by
    norm_num [get_min_max, rustRound, f32toU32]
    decide
  have h := claim_C1
    (Triangle.mk ⟨Vec4.new_xyzw (-(3 / 4)) (-(3 / 4)) (-1) 1, 0⟩
      ⟨Vec4.new_xyzw (-(3 / 4)) (1 / 4) (-1) 1, 1⟩
      ⟨Vec4.new_xyzw (1 / 4) (-(3 / 4)) (-1) 1, 2⟩
      ⟨Vec4.new_xyzw 0 0 1 0, 0⟩ ⟨Vec4.new_xyzw 0 0 1 0, 1⟩ ⟨Vec4.new_xyzw 0 0 1 0, 2⟩)
    Mat4.identity 4 4 1 1 _ _ _ _ _ _ _ _ rfl rfl rfl rfl rfl rfl rfl rfl
    (by rw [hpv1, hpv2, hpv3]; simp only [Vec4.new_xyzw, Vec4.x]; rw [hbox])
    (by rw [hpv1, hpv2, hpv3]; simp only [Vec4.new_xyzw, Vec4.x]; rw [hbox]; omega)
    (by rw [hpv1, hpv2, hpv3]; simp only [Vec4.new_xyzw, Vec4.y]; rw [hboxy])
    (by rw [hpv1, hpv2, hpv3]; simp only [Vec4.new_xyzw, Vec4.y]; rw [hboxy]; omega)
  refine ⟨h.1.mpr ?_, ?_⟩
  · rw [hpv1, hpv2, hpv3]
    norm_num [triangle_area, Vec4.new_xyzw, Vec4.x, Vec4.y]
  · rw [hpv1, hpv2, hpv3]
    norm_num [triangle_area, Vec4.new_xyzw, Vec4.x, Vec4.y]

/-- C4 (amended): the integer bounding box computed by `get_min_max` from
the three projected x (respectively y) coordinates is clamped to the image
and conservative for strict coverage: every pixel whose center has all three
edge values strictly positive and which lies inside the image is traversed.
(The original claim, for non-strict coverage, fails when the minimum vertex
coordinate equals the pixel center exactly, because `round` sends it past
the pixel; see the counterexample.) -/
theorem claim_C4 (tri : Triangle ℚ) (persp : Mat4 ℚ) (width height i j : ℕ)
    (v0_dc v1_dc v2_dc p : Vec4 ℚ) (w0 w1 w2 : ℚ)
    (_hv0 : v0_dc = projectVertex persp width height tri.v1.position)
    (_hv1 : v1_dc = projectVertex persp width height tri.v2.position)
    (_hv2 : v2_dc = projectVertex persp width height tri.v3.position)
    (hp : p = Vec4.new_xyzw ((i : ℚ) + 1 / 2) ((j : ℚ) + 1 / 2) 0 0)
    (hw0 : w0 = triangle_area v1_dc v2_dc p)
    (hw1 : w1 = triangle_area v2_dc v0_dc p)
    (hw2 : w2 = triangle_area v0_dc v1_dc p)
    (hwidth : width ≤ 4294967295) (hheight : height ≤ 4294967295)
    (hi : i < width) (hj : j < height)
    (h0 : 0 < w0) (h1 : 0 < w1) (h2 : 0 < w2) :
    (get_min_max v0_dc.x v1_dc.x v2_dc.x (width : ℚ) 0).1 ≤ i ∧
    i < (get_min_max v0_dc.x v1_dc.x v2_dc.x (width : ℚ) 0).2 ∧
    (get_min_max v0_dc.x v1_dc.x v2_dc.x (width : ℚ) 0).2 ≤ width ∧
    (get_min_max v0_dc.y v1_dc.y v2_dc.y (height : ℚ) 0).1 ≤ j ∧
    j < (get_min_max v0_dc.y v1_dc.y v2_dc.y (height : ℚ) 0).2 ∧
    (get_min_max v0_dc.y v1_dc.y v2_dc.y (height : ℚ) 0).2 ≤ height := by
  subst hp hw0 hw1 hw2
  obtain ⟨hsum, hreprox, hreproy⟩ := edge_sum_and_reproduce v0_dc v1_dc v2_dc
    (Vec4.new_xyzw ((i : ℚ) + 1 / 2) ((j : ℚ) + 1 / 2) 0 0)
  simp only [Vec4.x_new_xyzw, Vec4.y_new_xyzw] at hreprox hreproy
  have hdegx : ∀ px : ℚ, v0_dc.x = px → v1_dc.x = px → v2_dc.x = px → False := by
    intro px hx0 hx1 hx2
    have hzero : triangle_area v0_dc v1_dc v2_dc = 0 := by
      simp only [triangle_area]
      rw [hx0, hx1, hx2]
      ring
    have : (0 : ℚ) < triangle_area v0_dc v1_dc v2_dc := by
      rw [← hsum]
      linarith
    linarith
  have hdegy : ∀ py : ℚ, v0_dc.y = py → v1_dc.y = py → v2_dc.y = py → False := by
    intro py hy0 hy1 hy2
    have hzero : triangle_area v0_dc v1_dc v2_dc = 0 := by
      simp only [triangle_area]
      rw [hy0, hy1, hy2]
      ring
    have : (0 : ℚ) < triangle_area v0_dc v1_dc v2_dc := by
      rw [← hsum]
      linarith
    linarith
  have hminx : min (min v0_dc.x v1_dc.x) v2_dc.x < (i : ℚ) + 1 / 2 := by
    rcases convex_coord_min v0_dc.x v1_dc.x v2_dc.x ((i : ℚ) + 1 / 2) _ _ _ h0 h1 h2
      hreprox with hlt | ⟨hx0, hx1, hx2⟩
    · exact hlt
    · exact (hdegx _ hx0 hx1 hx2).elim
  have hmaxx : (i : ℚ) + 1 / 2 ≤ max (max v0_dc.x v1_dc.x) v2_dc.x :=
    convex_coord_max v0_dc.x v1_dc.x v2_dc.x ((i : ℚ) + 1 / 2) _ _ _
      h0.le h1.le h2.le (by linarith) hreprox
  have hminy : min (min v0_dc.y v1_dc.y) v2_dc.y < (j : ℚ) + 1 / 2 := by
    rcases convex_coord_min v0_dc.y v1_dc.y v2_dc.y ((j : ℚ) + 1 / 2) _ _ _ h0 h1 h2
      hreproy with hlt | ⟨hy0, hy1, hy2⟩
    · exact hlt
    · exact (hdegy _ hy0 hy1 hy2).elim
  have hmaxy : (j : ℚ) + 1 / 2 ≤ max (max v0_dc.y v1_dc.y) v2_dc.y :=
    convex_coord_max v0_dc.y v1_dc.y v2_dc.y ((j : ℚ) + 1 / 2) _ _ _
      h0.le h1.le h2.le (by linarith) hreproy
  obtain ⟨cx1, cx2, cx3⟩ :=
    get_min_max_conservative v0_dc.x v1_dc.x v2_dc.x width i hwidth hi hminx hmaxx
  obtain ⟨cy1, cy2, cy3⟩ :=
    get_min_max_conservative v0_dc.y v1_dc.y v2_dc.y height j hheight hj hminy hmaxy
  exact ⟨cx1, cx2, cx3, cy1, cy2, cy3⟩

/-- Witness for C4 at a concrete strictly-covered pixel of a concrete
projected triangle. -/
theorem claim_C4_witness :
    (0 < triangle_area
        (projectVertex (Mat4.identity : Mat4 ℚ) ((4 : ℕ) : ℚ) ((4 : ℕ) : ℚ)
          (Vec4.new_xyzw (-(3 / 4)) (3 / 4) (-1) 1))
        (projectVertex (Mat4.identity : Mat4 ℚ) ((4 : ℕ) : ℚ) ((4 : ℕ) : ℚ)
          (Vec4.new_xyzw (3 / 4) (-(3 / 4)) (-1) 1))
        (Vec4.new_xyzw (((1 : ℕ) : ℚ) + 1 / 2) (((1 : ℕ) : ℚ) + 1 / 2) 0 0)) ∧
    (get_min_max
        (projectVertex (Mat4.identity : Mat4 ℚ) ((4 : ℕ) : ℚ) ((4 : ℕ) : ℚ)
          (Vec4.new_xyzw (-(3 / 4)) (-(3 / 4)) (-1) 1)).x
        (projectVertex (Mat4.identity : Mat4 ℚ) ((4 : ℕ) : ℚ) ((4 : ℕ) : ℚ)
          (Vec4.new_xyzw (-(3 / 4)) (3 / 4) (-1) 1)).x
        (projectVertex (Mat4.identity : Mat4 ℚ) ((4 : ℕ) : ℚ) ((4 : ℕ) : ℚ)
          (Vec4.new_xyzw (3 / 4) (-(3 / 4)) (-1) 1)).x
        ((4 : ℕ) : ℚ) 0).1 ≤ 1 ∧
    1 < (get_min_max
        (projectVertex (Mat4.identity : Mat4 ℚ) ((4 : ℕ) : ℚ) ((4 : ℕ) : ℚ)
          (Vec4.new_xyzw (-(3 / 4)) (-(3 / 4)) (-1) 1)).x
        (projectVertex (Mat4.identity : Mat4 ℚ) ((4 : ℕ) : ℚ) ((4 : ℕ) : ℚ)
          (Vec4.new_xyzw (-(3 / 4)) (3 / 4) (-1) 1)).x
        (projectVertex (Mat4.identity : Mat4 ℚ) ((4 : ℕ) : ℚ) ((4 : ℕ) : ℚ)
          (Vec4.new_xyzw (3 / 4) (-(3 / 4)) (-1) 1)).x
        ((4 : ℕ) : ℚ) 0).2 := by
  have hpv1 : projectVertex (Mat4.identity : Mat4 ℚ) ((4 : ℕ) : ℚ) ((4 : ℕ) : ℚ)
      (Vec4.new_xyzw (-(3 / 4)) (-(3 / 4)) (-1) 1) = Vec4.new_xyzw (1 / 2) (1 / 2) 1 1 := by
    norm_num [projectVertex, Mat4.identity, Mat4.mat_vec_dot, Mat4._get_entry, Mat4.get,
      Mat4.transposed_get, Vec4.new_xyzw, Vec4.scalar_mul_, Vec4.x, Vec4.y, Vec4.z, Vec4.w]
  have hpv2 : projectVertex (Mat4.identity : Mat4 ℚ) ((4 : ℕ) : ℚ) ((4 : ℕ) : ℚ)
      (Vec4.new_xyzw (-(3 / 4)) (3 / 4) (-1) 1) = Vec4.new_xyzw (1 / 2) (7 / 2) 1 1 := by
    norm_num [projectVertex, Mat4.identity, Mat4.mat_vec_dot, Mat4._get_entry, Mat4.get,
      Mat4.transposed_get, Vec4.new_xyzw, Vec4.scalar_mul_, Vec4.x, Vec4.y, Vec4.z, Vec4.w]
  have hpv3 : projectVertex (Mat4.identity : Mat4 ℚ) ((4 : ℕ) : ℚ) ((4 : ℕ) : ℚ)
      (Vec4.new_xyzw (3 / 4) (-(3 / 4)) (-1) 1) = Vec4.new_xyzw (7 / 2) (1 / 2) 1 1 := by
    norm_num [projectVertex, Mat4.identity, Mat4.mat_vec_dot, Mat4._get_entry, Mat4.get,
      Mat4.transposed_get, Vec4.new_xyzw, Vec4.scalar_mul_, Vec4.x, Vec4.y, Vec4.z, Vec4.w]
  have h := claim_C4
    (Triangle.mk ⟨Vec4.new_xyzw (-(3 / 4)) (-(3 / 4)) (-1) 1, 0⟩
      ⟨Vec4.new_xyzw (-(3 / 4)) (3 / 4) (-1) 1, 1⟩
      ⟨Vec4.new_xyzw (3 / 4) (-(3 / 4)) (-1) 1, 2⟩
      ⟨Vec4.new_xyzw 0 0 1 0, 0⟩ ⟨Vec4.new_xyzw 0 0 1 0, 1⟩ ⟨Vec4.new_xyzw 0 0 1 0, 2⟩)
    Mat4.identity 4 4 1 1 _ _ _ _ _ _ _ rfl rfl rfl rfl rfl rfl rfl
    (by norm_num) (by norm_num) (by norm_num) (by norm_num)
    (by norm_num [projectVertex, Mat4.identity, Mat4.mat_vec_dot, Mat4._get_entry,
          Mat4.get, Mat4.transposed_get, Vec4.new_xyzw, Vec4.scalar_mul_, Vec4.x,
          Vec4.y, Vec4.z, Vec4.w, triangle_area])
    (by norm_num [projectVertex, Mat4.identity, Mat4.mat_vec_dot, Mat4._get_entry,
          Mat4.get, Mat4.transposed_get, Vec4.new_xyzw, Vec4.scalar_mul_, Vec4.x,
          Vec4.y, Vec4.z, Vec4.w, triangle_area])
    (by norm_num [projectVertex, Mat4.identity, Mat4.mat_vec_dot, Mat4._get_entry,
          Mat4.get, Mat4.transposed_get, Vec4.new_xyzw, Vec4.scalar_mul_, Vec4.x,
          Vec4.y, Vec4.z, Vec4.w, triangle_area])
  refine ⟨?_, h.1, h.2.1⟩
  rw [hpv2, hpv3]
  norm_num [triangle_area, Vec4.new_xyzw, Vec4.x, Vec4.y]

/-- C4 counterexample: pixel (0, 0) of a 4x4 image is covered (all three
edge values non-negative) by the projected triangle with device-space
corners (1/2, 1/2), (1/2, 5/2), (5/2, 1/2) and lies inside the image, yet
the traversed x-range starts at `x_min = round(1/2) = 1 > 0`, so the pixel
is outside the bounding box. -/
theorem claim_C4_counterexample :
    (0 ≤ triangle_area
        (projectVertex (Mat4.identity : Mat4 ℚ) ((4 : ℕ) : ℚ) ((4 : ℕ) : ℚ)
          (Vec4.new_xyzw (-(3 / 4)) (1 / 4) (-1) 1))
        (projectVertex (Mat4.identity : Mat4 ℚ) ((4 : ℕ) : ℚ) ((4 : ℕ) : ℚ)
          (Vec4.new_xyzw (1 / 4) (-(3 / 4)) (-1) 1))
        (Vec4.new_xyzw (((0 : ℕ) : ℚ) + 1 / 2) (((0 : ℕ) : ℚ) + 1 / 2) 0 0) ∧
     0 ≤ triangle_area
        (projectVertex (Mat4.identity : Mat4 ℚ) ((4 : ℕ) : ℚ) ((4 : ℕ) : ℚ)
          (Vec4.new_xyzw (1 / 4) (-(3 / 4)) (-1) 1))
        (projectVertex (Mat4.identity : Mat4 ℚ) ((4 : ℕ) : ℚ) ((4 : ℕ) : ℚ)
          (Vec4.new_xyzw (-(3 / 4)) (-(3 / 4)) (-1) 1))
        (Vec4.new_xyzw (((0 : ℕ) : ℚ) + 1 / 2) (((0 : ℕ) : ℚ) + 1 / 2) 0 0) ∧
     0 ≤ triangle_area
        (projectVertex (Mat4.identity : Mat4 ℚ) ((4 : ℕ) : ℚ) ((4 : ℕ) : ℚ)
          (Vec4.new_xyzw (-(3 / 4)) (-(3 / 4)) (-1) 1))
        (projectVertex (Mat4.identity : Mat4 ℚ) ((4 : ℕ) : ℚ) ((4 : ℕ) : ℚ)
          (Vec4.new_xyzw (-(3 / 4)) (1 / 4) (-1) 1))
        (Vec4.new_xyzw (((0 : ℕ) : ℚ) + 1 / 2) (((0 : ℕ) : ℚ) + 1 / 2) 0 0)) ∧
    (0 : ℕ) < 4 ∧
    ¬((get_min_max
        (projectVertex (Mat4.identity : Mat4 ℚ) ((4 : ℕ) : ℚ) ((4 : ℕ) : ℚ)
          (Vec4.new_xyzw (-(3 / 4)) (-(3 / 4)) (-1) 1)).x
        (projectVertex (Mat4.identity : Mat4 ℚ) ((4 : ℕ) : ℚ) ((4 : ℕ) : ℚ)
          (Vec4.new_xyzw (-(3 / 4)) (1 / 4) (-1) 1)).x
        (projectVertex (Mat4.identity : Mat4 ℚ) ((4 : ℕ) : ℚ) ((4 : ℕ) : ℚ)
          (Vec4.new_xyzw (1 / 4) (-(3 / 4)) (-1) 1)).x
        ((4 : ℕ) : ℚ) 0).1 ≤ 0) := by
  have hpv1 : projectVertex (Mat4.identity : Mat4 ℚ) ((4 : ℕ) : ℚ) ((4 : ℕ) : ℚ)
      (Vec4.new_xyzw (-(3 / 4)) (-(3 / 4)) (-1) 1) = Vec4.new_xyzw (1 / 2) (1 / 2) 1 1 := by
    norm_num [projectVertex, Mat4.identity, Mat4.mat_vec_dot, Mat4._get_entry, Mat4.get,
      Mat4.transposed_get, Vec4.new_xyzw, Vec4.scalar_mul_, Vec4.x, Vec4.y, Vec4.z, Vec4.w]
  have hpv2 : projectVertex (Mat4.identity : Mat4 ℚ) ((4 : ℕ) : ℚ) ((4 : ℕ) : ℚ)
      (Vec4.new_xyzw (-(3 / 4)) (1 / 4) (-1) 1) = Vec4.new_xyzw (1 / 2) (5 / 2) 1 1 := by
    norm_num [projectVertex, Mat4.identity, Mat4.mat_vec_dot, Mat4._get_entry, Mat4.get,
      Mat4.transposed_get, Vec4.new_xyzw, Vec4.scalar_mul_, Vec4.x, Vec4.y, Vec4.z, Vec4.w]
  have hpv3 : projectVertex (Mat4.identity : Mat4 ℚ) ((4 : ℕ) : ℚ) ((4 : ℕ) : ℚ)
      (Vec4.new_xyzw (1 / 4) (-(3 / 4)) (-1) 1) = Vec4.new_xyzw (5 / 2) (1 / 2) 1 1 := by
    norm_num [projectVertex, Mat4.identity, Mat4.mat_vec_dot, Mat4._get_entry, Mat4.get,
      Mat4.transposed_get, Vec4.new_xyzw, Vec4.scalar_mul_, Vec4.x, Vec4.y, Vec4.z, Vec4.w]
  rw [hpv1, hpv2, hpv3]
  refine ⟨⟨?_, ?_, ?_⟩, by norm_num, ?_⟩
  · norm_num [triangle_area, Vec4.new_xyzw, Vec4.x, Vec4.y]
  · norm_num [triangle_area, Vec4.new_xyzw, Vec4.x, Vec4.y]
  · norm_num [triangle_area, Vec4.new_xyzw, Vec4.x, Vec4.y]
  · simp only [Vec4.new_xyzw, Vec4.x]
    rw [show get_min_max (1 / 2 : ℚ) (1 / 2) (5 / 2) ((4 : ℕ) : ℚ) 0 = (1, 3) from by
      norm_num [get_min_max, rustRound, f32toU32]
      decide]
    norm_num

/-- C5: `phong_lighting` returns
`(diffuse*max(0,n.l) + reflection*spec) ⊙ light.diffuse + ambient ⊙ light.ambient`
where the specular term uses the convention that a zero base yields exactly 0
for every exponent; in particular a zero `reflected·view` contributes no
specular light. -/
theorem claim_C5 (ld nn vd : Vec3 ℝ) (material : Material) (light : Light) :
    (let reflected := reflect (ld.scalar_mul (-1)) nn
     let diffuse_term : ℝ := max 0 (nn.dot ld)
     let specular_term : ℝ :=
       if max 0 (reflected.dot vd) = 0 then 0
       else max 0 (reflected.dot vd) ^ material.specular
     (phong_lighting ld nn vd material light).d0 =
        (material.diffuse.d0 * diffuse_term
          + material.reflection.d0 * specular_term) * light.diffuse.d0
          + material.ambient.d0 * light.ambient.d0 ∧
     (phong_lighting ld nn vd material light).d1 =
        (material.diffuse.d1 * diffuse_term
          + material.reflection.d1 * specular_term) * light.diffuse.d1
          + material.ambient.d1 * light.ambient.d1 ∧
     (phong_lighting ld nn vd material light).d2 =
        (material.diffuse.d2 * diffuse_term
          + material.reflection.d2 * specular_term) * light.diffuse.d2
          + material.ambient.d2 * light.ambient.d2 ∧
     (reflected.dot vd = 0 →
       (phong_lighting ld nn vd material light).d0 =
         material.diffuse.d0 * diffuse_term * light.diffuse.d0
           + material.ambient.d0 * light.ambient.d0)) := by
  simp only [phong_lighting, Vec3.add_, Vec3.product_, Vec3.product,
    Vec3.scalar_mul, Vec3.new_xyz, Vec3.x, Vec3.y, Vec3.z, Vec3.r, Vec3.g, Vec3.b]
  refine ⟨by ring, by ring, by ring, fun h => ?_⟩
  rw [h]
  simp
  ring

/-- Witness for C5 at concrete vectors with `reflected·view = 0`. -/
theorem claim_C5_witness :
    ((reflect ((Vec3.new_xyz 1 0 0 : Vec3 ℝ).scalar_mul (-1)) (Vec3.new_xyz 0 1 0)).dot
        (Vec3.new_xyz 0 0 0) = 0) ∧
    (phong_lighting (Vec3.new_xyz 1 0 0) (Vec3.new_xyz 0 1 0) (Vec3.new_xyz 0 0 0)
        (Material.mk (Vec3.new_xyz 1 1 1) (Vec3.new_xyz 1 1 1) (Vec3.new_xyz 1 1 1)
          (Vec3.new_xyz 0 0 0) 7)
        (Light.mk (Vec3.new_xyz 0 0 0) (Vec3.new_xyz 0 0 0) (Vec3.new_xyz 1 1 1)
          (Vec3.new_xyz 1 1 1))).d0 =
      (1 : ℝ) * max 0 ((Vec3.new_xyz 0 1 0 : Vec3 ℝ).dot (Vec3.new_xyz 1 0 0)) * 1
        + 1 * 1 := by
  have h : (reflect ((Vec3.new_xyz 1 0 0 : Vec3 ℝ).scalar_mul (-1)) (Vec3.new_xyz 0 1 0)).dot
      (Vec3.new_xyz 0 0 0) = 0 := by
    norm_num [reflect, Vec3.dot, Vec3.scalar_mul, Vec3._minus, Vec3.new_xyz,
      Vec3.x, Vec3.y, Vec3.z]
  refine ⟨h, ?_⟩
  have := (claim_C5 (Vec3.new_xyz 1 0 0) (Vec3.new_xyz 0 1 0) (Vec3.new_xyz 0 0 0)
    (Material.mk (Vec3.new_xyz 1 1 1) (Vec3.new_xyz 1 1 1) (Vec3.new_xyz 1 1 1)
      (Vec3.new_xyz 0 0 0) 7)
    (Light.mk (Vec3.new_xyz 0 0 0) (Vec3.new_xyz 0 0 0) (Vec3.new_xyz 1 1 1)
      (Vec3.new_xyz 1 1 1))).2.2.2 h
  rw [this]
  norm_num [Vec3.new_xyz]

/-- C7: for a valid view basis, `look_at` maps the homogeneous eye position
to the eye-space origin and maps `center` onto the negative forward axis at
distance `|eye - center|` (exactly, in real arithmetic). -/
theorem claim_C7 (eye center up : Vec3 ℝ)
    (hd : 0 < Vec3.dot (eye._minus center) (eye._minus center))
    (_hup : 0 < Vec3.dot ((eye._minus center).cross up)
      ((eye._minus center).cross up)) :
    ((look_at eye center up).mat_vec_dot (Vec4.fromVec3 eye 1)).x = 0 ∧
    ((look_at eye center up).mat_vec_dot (Vec4.fromVec3 eye 1)).y = 0 ∧
    ((look_at eye center up).mat_vec_dot (Vec4.fromVec3 eye 1)).z = 0 ∧
    ((look_at eye center up).mat_vec_dot (Vec4.fromVec3 eye 1)).w = 1 ∧
    ((look_at eye center up).mat_vec_dot (Vec4.fromVec3 center 1)).x = 0 ∧
    ((look_at eye center up).mat_vec_dot (Vec4.fromVec3 center 1)).y = 0 ∧
    ((look_at eye center up).mat_vec_dot (Vec4.fromVec3 center 1)).z =
      -(eye._minus center).get_length ∧
    ((look_at eye center up).mat_vec_dot (Vec4.fromVec3 center 1)).w = 1 := by
  have hrd : Vec3.dot (((eye._minus center).normalize_.cross up).normalize_)
      (eye._minus center) = 0 := by
    rw [normalize_dot_left, cross_norm_dot, zero_div]
  have hud : Vec3.dot (((((eye._minus center).normalize_.cross up).normalize_).cross
      ((eye._minus center).normalize_)).normalize_) (eye._minus center) = 0 := by
    rw [normalize_dot_left, cross_with_norm_dot, zero_div]
  have hfd : Vec3.dot ((eye._minus center).normalize_) (eye._minus center)
      = (eye._minus center).get_length := by
    rw [normalize_dot_left]
    rw [get_length_eq_sqrt_dot]
    rw [div_eq_iff (ne_of_gt (Real.sqrt_pos.mpr hd))]
    exact (Real.mul_self_sqrt hd.le).symm
  simp only [dot_eq_raw, minus_d0, minus_d1, minus_d2] at hrd hud hfd
  simp only [look_at_apply, Vec4.fromVec3, Vec4.new_xyzw, Vec3.x, Vec3.y, Vec3.z,
    Vec4.x, Vec4.y, Vec4.z, Vec4.w]
  refine ⟨by ring, by ring, by ring, by trivial, ?_, ?_, ?_, by trivial⟩
  · linear_combination (-1 : ℝ) * hrd
  · linear_combination (-1 : ℝ) * hud
  · linear_combination (-1 : ℝ) * hfd

/-- Witness for C7 at the spec's concrete camera: eye = (0,0,1), center at
the origin, up = (0,1,0); the mapped center has eye-space z = -1. -/
theorem claim_C7_witness :
    (0 < Vec3.dot ((Vec3.new_xyz (0 : ℝ) 0 1)._minus (Vec3.new_xyz 0 0 0))
      ((Vec3.new_xyz (0 : ℝ) 0 1)._minus (Vec3.new_xyz 0 0 0))) ∧
    (0 < Vec3.dot (((Vec3.new_xyz (0 : ℝ) 0 1)._minus (Vec3.new_xyz 0 0 0)).cross
        (Vec3.new_xyz 0 1 0))
      (((Vec3.new_xyz (0 : ℝ) 0 1)._minus (Vec3.new_xyz 0 0 0)).cross
        (Vec3.new_xyz 0 1 0))) ∧
    ((look_at (Vec3.new_xyz 0 0 1) (Vec3.new_xyz 0 0 0)
        (Vec3.new_xyz 0 1 0)).mat_vec_dot
      (Vec4.fromVec3 (Vec3.new_xyz 0 0 0) 1)).z = -1 ∧
    ((look_at (Vec3.new_xyz 0 0 1) (Vec3.new_xyz 0 0 0)
        (Vec3.new_xyz 0 1 0)).mat_vec_dot
      (Vec4.fromVec3 (Vec3.new_xyz 0 0 0) 1)).x = 0 := by
  have hd : (0 : ℝ) < Vec3.dot ((Vec3.new_xyz (0 : ℝ) 0 1)._minus (Vec3.new_xyz 0 0 0))
      ((Vec3.new_xyz (0 : ℝ) 0 1)._minus (Vec3.new_xyz 0 0 0)) := by
    norm_num [Vec3.dot, Vec3._minus, Vec3.new_xyz, Vec3.x, Vec3.y, Vec3.z]
  have hup : (0 : ℝ) < Vec3.dot
      (((Vec3.new_xyz (0 : ℝ) 0 1)._minus (Vec3.new_xyz 0 0 0)).cross (Vec3.new_xyz 0 1 0))
      (((Vec3.new_xyz (0 : ℝ) 0 1)._minus (Vec3.new_xyz 0 0 0)).cross (Vec3.new_xyz 0 1 0)) := by
    norm_num [Vec3.dot, Vec3.cross, Vec3._minus, Vec3.new_xyz, Vec3.x, Vec3.y, Vec3.z]
  have h := claim_C7 (Vec3.new_xyz 0 0 1) (Vec3.new_xyz 0 0 0) (Vec3.new_xyz 0 1 0) hd hup
  have hlen : ((Vec3.new_xyz (0 : ℝ) 0 1)._minus (Vec3.new_xyz 0 0 0)).get_length = 1 := by
    norm_num [Vec3.get_length, Vec3._minus, Vec3.new_xyz]
  refine ⟨hd, hup, ?_, h.2.2.2.2.1⟩
  rw [h.2.2.2.2.2.2.1, hlen]

/-- C3: for eye distinct from center and up not parallel to eye - center,
applying `look_at` and then `inverse_look_at` to any homogeneous point with
w = 1 returns the point (exactly, in real arithmetic). -/
theorem claim_C3 (eye center up : Vec3 ℝ) (p : Vec4 ℝ)
    (hd : 0 < Vec3.dot (eye._minus center) (eye._minus center))
    (hup : 0 < Vec3.dot ((eye._minus center).cross up)
      ((eye._minus center).cross up))
    (hw : p.w = 1) :
    ((inverse_look_at eye center up).mat_vec_dot
        ((look_at eye center up).mat_vec_dot p)).x = p.x ∧
    ((inverse_look_at eye center up).mat_vec_dot
        ((look_at eye center up).mat_vec_dot p)).y = p.y ∧
    ((inverse_look_at eye center up).mat_vec_dot
        ((look_at eye center up).mat_vec_dot p)).z = p.z ∧
    ((inverse_look_at eye center up).mat_vec_dot
        ((look_at eye center up).mat_vec_dot p)).w = p.w := by
  have hff : Vec3.dot ((eye._minus center).normalize_)
      ((eye._minus center).normalize_) = 1 := normalize_self_dot _ hd
  have hL : 0 < (eye._minus center).get_length := by
    rw [get_length_eq_sqrt_dot]
    exact Real.sqrt_pos.mpr hd
  have hSS : 0 < Vec3.dot ((eye._minus center).normalize_.cross up)
      ((eye._minus center).normalize_.cross up) := by
    rw [normalized_cross_dot]
    exact div_pos hup (mul_pos hL hL)
  have hrr : Vec3.dot (((eye._minus center).normalize_.cross up).normalize_)
      (((eye._minus center).normalize_.cross up).normalize_) = 1 :=
    normalize_self_dot _ hSS
  have hrf : Vec3.dot (((eye._minus center).normalize_.cross up).normalize_)
      ((eye._minus center).normalize_) = 0 := by
    rw [normalize_dot_left]
    rw [show Vec3.dot ((eye._minus center).normalize_.cross up)
        ((eye._minus center).normalize_) = 0 from cross_dot_left _ _]
    exact zero_div _
  have htt : Vec3.dot
      ((((eye._minus center).normalize_.cross up).normalize_).cross
        ((eye._minus center).normalize_))
      ((((eye._minus center).normalize_.cross up).normalize_).cross
        ((eye._minus center).normalize_)) = 1 := by
    rw [cross_lagrange, hrr, hff, hrf]
    ring
  have hu : ((((eye._minus center).normalize_.cross up).normalize_).cross
      ((eye._minus center).normalize_)).normalize_ =
      (((eye._minus center).normalize_.cross up).normalize_).cross
        ((eye._minus center).normalize_) := normalize_of_unit _ htt
  obtain ⟨b0, b1, b2⟩ := basis_reproduce
    (((eye._minus center).normalize_.cross up).normalize_)
    ((eye._minus center).normalize_)
    (Vec3.new_xyz (p.d0 - eye.d0) (p.d1 - eye.d1) (p.d2 - eye.d2))
    hrr hff hrf
  simp only [Vec4.w] at hw
  simp only [dot_eq_raw, cross_d0, cross_d1, cross_d2, new_xyz_d0, new_xyz_d1,
    new_xyz_d2] at b0 b1 b2
  simp only [look_at_apply, inverse_look_at_apply, hu, Vec4.new_xyzw,
    cross_d0, cross_d1, cross_d2, Vec4.x, Vec4.y, Vec4.z, Vec4.w, hw]
  refine ⟨?_, ?_, ?_, by trivial⟩
  · linear_combination b0
  · linear_combination b1
  · linear_combination b2

/-- Witness for C3 at the spec's concrete round trip: eye = (4,0,3), center
at the origin, up = (0,1,0), point (30,100,100,1). -/
theorem claim_C3_witness :
    (0 < Vec3.dot ((Vec3.new_xyz (4 : ℝ) 0 3)._minus (Vec3.new_xyz 0 0 0))
      ((Vec3.new_xyz (4 : ℝ) 0 3)._minus (Vec3.new_xyz 0 0 0))) ∧
    (0 < Vec3.dot (((Vec3.new_xyz (4 : ℝ) 0 3)._minus (Vec3.new_xyz 0 0 0)).cross
        (Vec3.new_xyz 0 1 0))
      (((Vec3.new_xyz (4 : ℝ) 0 3)._minus (Vec3.new_xyz 0 0 0)).cross
        (Vec3.new_xyz 0 1 0))) ∧
    ((Vec4.new_xyzw (30 : ℝ) 100 100 1).w = 1) ∧
    ((inverse_look_at (Vec3.new_xyz 4 0 3) (Vec3.new_xyz 0 0 0)
        (Vec3.new_xyz 0 1 0)).mat_vec_dot
      ((look_at (Vec3.new_xyz 4 0 3) (Vec3.new_xyz 0 0 0)
        (Vec3.new_xyz 0 1 0)).mat_vec_dot (Vec4.new_xyzw 30 100 100 1))).x =
      (Vec4.new_xyzw (30 : ℝ) 100 100 1).x ∧
    ((inverse_look_at (Vec3.new_xyz 4 0 3) (Vec3.new_xyz 0 0 0)
        (Vec3.new_xyz 0 1 0)).mat_vec_dot
      ((look_at (Vec3.new_xyz 4 0 3) (Vec3.new_xyz 0 0 0)
        (Vec3.new_xyz 0 1 0)).mat_vec_dot (Vec4.new_xyzw 30 100 100 1))).y =
      (Vec4.new_xyzw (30 : ℝ) 100 100 1).y ∧
    ((inverse_look_at (Vec3.new_xyz 4 0 3) (Vec3.new_xyz 0 0 0)
        (Vec3.new_xyz 0 1 0)).mat_vec_dot
      ((look_at (Vec3.new_xyz 4 0 3) (Vec3.new_xyz 0 0 0)
        (Vec3.new_xyz 0 1 0)).mat_vec_dot (Vec4.new_xyzw 30 100 100 1))).z =
      (Vec4.new_xyzw (30 : ℝ) 100 100 1).z := by
  have hd : (0 : ℝ) < Vec3.dot ((Vec3.new_xyz (4 : ℝ) 0 3)._minus (Vec3.new_xyz 0 0 0))
      ((Vec3.new_xyz (4 : ℝ) 0 3)._minus (Vec3.new_xyz 0 0 0)) := by
    norm_num [Vec3.dot, Vec3._minus, Vec3.new_xyz, Vec3.x, Vec3.y, Vec3.z]
  have hup : (0 : ℝ) < Vec3.dot
      (((Vec3.new_xyz (4 : ℝ) 0 3)._minus (Vec3.new_xyz 0 0 0)).cross (Vec3.new_xyz 0 1 0))
      (((Vec3.new_xyz (4 : ℝ) 0 3)._minus (Vec3.new_xyz 0 0 0)).cross (Vec3.new_xyz 0 1 0)) := by
    norm_num [Vec3.dot, Vec3.cross, Vec3._minus, Vec3.new_xyz, Vec3.x, Vec3.y, Vec3.z]
  have h := claim_C3 (Vec3.new_xyz 4 0 3) (Vec3.new_xyz 0 0 0) (Vec3.new_xyz 0 1 0)
    (Vec4.new_xyzw 30 100 100 1) hd hup rfl
  exact ⟨hd, hup, rfl, h.1, h.2.1, h.2.2.1⟩

/-- C10: an update with a NaN candidate depth is always rejected and leaves
every cell of the buffer unchanged, because `stored > NaN` is false. -/
theorem claim_C10 (zb : ZBuffer) (x y : ℕ) :
    zb.update x y F32.nan = (false, zb) ∧
    (zb.update x y F32.nan).2.depth_buffer x y = zb.depth_buffer x y := by
  have h : (zb.depth_buffer x y).fgt F32.nan = false := F32.fgt_nan_right _
  simp [ZBuffer.update, h]

end Rusterizer
